import Mathlib

/-!
Verification of the CoAPy addressing / URI-translation core
(`coapy/endpoint.py`, `coapy/util.py`) against its specification.

Modelling conventions
=====================

* Text is modelled as byte sequences, `Str := List Char` with every
  character below 256.  `bytes.decode('utf-8')` is embedded exactly
  (`utf8Decode`, following CPython 2.7's accepted sequences, with
  `none` for `UnicodeDecodeError`), and the segment pipeline of
  `uri_to_options` (`bytes` / `urllib.unquote` / `.decode('utf-8')`)
  is the fallible `decode_segment`.  `to_net_unicode` (NFC
  normalization) and `.encode('utf-8')` are embedded as the identity,
  which is exact on ASCII; every theorem that goes through them
  restricts the strings they touch to ASCII.
* Python standard-library helpers used by the source
  (`urllib.quote`, `urllib.unquote`, `str.split`, `str.join`,
  `bisect.insort`, `list.remove`, `list.index`) are embedded as
  executable Lean functions (`pyQuote`, `pyUnquote`, `splitOnChar`,
  `intercalateChar`, ...), following the CPython 2 semantics.
* Fallible Python code is embedded with `Option`/`Except`; a raised
  exception corresponds to `none` / `.error`.
-/

instance exceptDecidableEq {ε α : Type} [DecidableEq ε] [DecidableEq α] :
    DecidableEq (Except ε α)
  | .error e, .error f =>
    if h : e = f then .isTrue (congrArg Except.error h)
    else .isFalse (fun hh => h (Except.error.inj hh))
  | .error _, .ok _ => .isFalse (fun hh => Except.noConfusion hh)
  | .ok _, .error _ => .isFalse (fun hh => Except.noConfusion hh)
  | .ok a, .ok b =>
    if h : a = b then .isTrue (congrArg Except.ok h)
    else .isFalse (fun hh => h (Except.ok.inj hh))

/-- Python (2) text, modelled as a sequence of byte-valued characters. -/
abbrev Str := List Char

/-- A string all of whose characters are byte-valued; the domain of the
byte-sequence model of Python 2 `str`. -/
def ByteStr (s : Str) : Prop := ∀ c ∈ s, c.toNat < 256

instance : DecidablePred ByteStr := fun s =>
  inferInstanceAs (Decidable (∀ c ∈ s, c.toNat < 256))

/-- Uppercase hexadecimal digit for a value below 16, as produced by
Python's `'%%%02X' % i` quoting table. -/
def hexDigitCharU (n : Nat) : Char :=
  if n < 10 then Char.ofNat (48 + n) else Char.ofNat (55 + n)

/-- Characters accepted by Python 2 `int(s, 16)` digit parsing. -/
def isHexDigitB (c : Char) : Bool :=
  (48 ≤ c.toNat && c.toNat ≤ 57) ||
  (65 ≤ c.toNat && c.toNat ≤ 70) ||
  (97 ≤ c.toNat && c.toNat ≤ 102)

/-- Numeric value of a hexadecimal digit character. -/
def hexVal (c : Char) : Nat :=
  if 48 ≤ c.toNat && c.toNat ≤ 57 then c.toNat - 48
  else if 65 ≤ c.toNat && c.toNat ≤ 70 then c.toNat - 55
  else c.toNat - 87

/-- Python 2 `urllib.always_safe`: ASCII letters, digits and `_.-`. -/
def isAlwaysSafe (c : Char) : Bool :=
  c.isAlpha || c.isDigit || c = '_' || c = '.' || c = '-'

/-- Python 2 `urllib.quote(s, safe)`: every character that is neither in
`always_safe` nor in `safe` is replaced by `%XX` with uppercase
hexadecimal digits. -/
def pyQuote (safe : List Char) : Str → Str
  | [] => []
  | c :: t =>
    (if isAlwaysSafe c || safe.contains c then [c]
     else ['%', hexDigitCharU (c.toNat / 16), hexDigitCharU (c.toNat % 16)]) ++
    pyQuote safe t

/-- Python 2 `urllib.unquote(s)`: the input is split on `%`; for each
part after the first, its first two characters are looked up in the
`_hextochr` table (whose keys are exactly the two-hex-digit strings)
and on success replaced by the corresponding character; on a `KeyError`
— the part is shorter than two characters or either character is not a
hex digit — the `%` and the part are kept verbatim.  This structural
recursion realizes exactly that part-based algorithm: after a `%` it
examines the at most two characters before the next `%`. -/
def pyUnquote : Str → Str
  | [] => []
  | c :: t =>
    if c = '%' then
      match t with
      | [] => ['%']
      | [a] => ['%', a]
      | a :: b :: r =>
        if a = '%' then
          '%' :: pyUnquote (a :: b :: r)
        else if b = '%' then
          '%' :: a :: pyUnquote (b :: r)
        else if isHexDigitB a && isHexDigitB b then
          Char.ofNat (16 * hexVal a + hexVal b) :: pyUnquote r
        else
          '%' :: pyUnquote (a :: b :: r)
    else c :: pyUnquote t

/-- A UTF-8 continuation byte (`10xxxxxx`). -/
def isContByte (c : Char) : Bool :=
  128 ≤ c.toNat && c.toNat ≤ 191

/-- CPython 2.7 `bytes.decode('utf-8')` on a byte sequence: `none`
models the `UnicodeDecodeError` raise.  The accepted sequences follow
Python 2.7's decoder exactly: ASCII; two-byte forms with lead byte
`C2..DF`; three-byte forms decoding to a code point at least `0x800`
(2.7 accepts encoded surrogates, unlike Python 3); four-byte forms
decoding into `0x10000..0x10FFFF`; everything else — stray continuation
bytes, overlong forms, `F5..FF` lead bytes, truncated sequences —
raises.  Decoded code points are represented as Lean `Char`; Lean's
`Char` excludes the surrogate range that Python 2.7's lenient decoder
admits, so for a (three-byte) surrogate sequence only the success of
the decode, not the resulting code point, is represented exactly.
`utf8DecodeF` is the decoder with an explicit fuel bound (structural
recursion on the byte budget); `utf8Decode` runs it with enough fuel
for the whole input. -/
def utf8DecodeF : Nat → Str → Option Str
  | _, [] => some []
  | 0, _ :: _ => none
  | fuel + 1, c :: t =>
    let b := c.toNat
    if b < 128 then (utf8DecodeF fuel t).map (c :: ·)
    else if 194 ≤ b && b ≤ 223 then
      match t with
      | c1 :: t1 =>
        if isContByte c1 then
          (utf8DecodeF fuel t1).map
            (Char.ofNat ((b - 192) * 64 + (c1.toNat - 128)) :: ·)
        else none
      | [] => none
    else if 224 ≤ b && b ≤ 239 then
      match t with
      | c1 :: c2 :: t2 =>
        if isContByte c1 && isContByte c2 then
          let cp := (b - 224) * 4096 + (c1.toNat - 128) * 64 + (c2.toNat - 128)
          if 2048 ≤ cp then (utf8DecodeF fuel t2).map (Char.ofNat cp :: ·)
          else none
        else none
      | _ => none
    else if 240 ≤ b && b ≤ 244 then
      match t with
      | c1 :: c2 :: c3 :: t3 =>
        if isContByte c1 && isContByte c2 && isContByte c3 then
          let cp := (b - 240) * 262144 + (c1.toNat - 128) * 4096 +
            (c2.toNat - 128) * 64 + (c3.toNat - 128)
          if 65536 ≤ cp && cp ≤ 1114111 then
            (utf8DecodeF fuel t3).map (Char.ofNat cp :: ·)
          else none
        else none
      | _ => none
    else none

/-- `bytes.decode('utf-8')`: each step of `utf8DecodeF` consumes at
least one byte, so fuel equal to the byte count always suffices (the
zero-fuel case is unreachable from here). -/
def utf8Decode (s : Str) : Option Str := utf8DecodeF s.length s

/-- Python `s.split(sep)` for a one-character separator: never returns
an empty list, and `''.split(sep) = ['']`. -/
def splitOnChar (sep : Char) : Str → List Str
  | [] => [[]]
  | c :: t =>
    if c = sep then [] :: splitOnChar sep t
    else
      match splitOnChar sep t with
      | [] => [[c]]
      | p :: ps => (c :: p) :: ps

/-- Python `sep.join(parts)` for a one-character separator. -/
def intercalateChar (sep : Char) : List Str → Str
  | [] => []
  | [x] => x
  | x :: y :: ys => x ++ sep :: intercalateChar sep (y :: ys)

/-- Model of `coapy.util.to_net_unicode` (`util.py` lines 168-181):
NFC-normalize and UTF-8-encode.  Embedded as the identity, which is
exact only on ASCII input (NFC and UTF-8 are the identity there);
theorems that route non-trivial data through this function carry
ASCII hypotheses on that data. -/
def to_net_unicode (s : Str) : Str := s

/-- Model of Python `text.encode('utf-8')`; the identity on ASCII
input, the only domain on which the theorems below use it. -/
def utf8Encode (s : Str) : Str := s

/-- Python `s.lower()` for ASCII scheme names. -/
def lowerStr (s : Str) : Str := s.map Char.toLower

/-- Decimal rendering of a port number, as used by
`'{0}:{1}'.format(host, port)`. -/
def natToStr (n : Nat) : Str := (toString n).toList

/-! ## `coapy.util.TimeDueOrdinal` (util.py lines 95-165)

Entries are modelled with an explicit object identity `eid` (distinct
Python objects get distinct `eid`s) and the mutable `time_due`
attribute, which is `None` or an ordinal (`Option Nat`). -/

/-- A `TimeDueOrdinal` instance: `eid` is the Python object identity,
`time_due` the attribute of the same name (possibly `None`). -/
structure TimeDueOrdinal where
  eid : Nat
  time_due : Option Nat
deriving DecidableEq

/-- `TimeDueOrdinal.__eq__` (util.py line 125):
`(self.time_due is not None) and (self.time_due == other.time_due)`. -/
def pyEqTD (self other : TimeDueOrdinal) : Bool :=
  !self.time_due.isNone && self.time_due == other.time_due

/-- Python 2 `<` on `time_due` values: `None` compares below every
number, and `None < None` is false. -/
def pyLtOptNat : Option Nat → Option Nat → Bool
  | none, none => false
  | none, some _ => true
  | some _, none => false
  | some m, some n => m < n

/-- `TimeDueOrdinal.__lt__` (util.py line 132):
`self.time_due < other.time_due` under Python 2 `None` ordering. -/
def pyLtTD (self other : TimeDueOrdinal) : Bool :=
  pyLtOptNat self.time_due other.time_due

/-- Non-strict comparison by due time, used to state sortedness. -/
def timeLeTD (a b : TimeDueOrdinal) : Bool :=
  pyLtTD a b || a.time_due == b.time_due

/-- Executable check that consecutive entries are ordered by
`time_due`. -/
def sortedByTimeB : List TimeDueOrdinal → Bool
  | [] => true
  | [_] => true
  | a :: b :: t => timeLeTD a b && sortedByTimeB (b :: t)

/-- The queue is sorted ascending by `time_due`. -/
def SortedByTime (q : List TimeDueOrdinal) : Prop :=
  sortedByTimeB q = true

instance : DecidablePred SortedByTime := fun q =>
  inferInstanceAs (Decidable (sortedByTimeB q = true))

/-- One binary-search step bound: `bisect.bisect_right`'s `while lo < hi`
loop.  The interval `hi - lo` shrinks at every iteration, so any fuel of
at least `hi - lo` iterations computes the loop's result; callers pass
`a.length + 1`. -/
def bisectRightLoop (a : List TimeDueOrdinal) (x : TimeDueOrdinal) :
    Nat → Nat → Nat → Nat
  | 0, lo, _ => lo
  | fuel + 1, lo, hi =>
    if lo < hi then
      let mid := (lo + hi) / 2
      if pyLtTD x (a.getD mid ⟨0, none⟩) then bisectRightLoop a x fuel lo mid
      else bisectRightLoop a x fuel (mid + 1) hi
    else lo

/-- Python `bisect.bisect_right(a, x)`. -/
def bisect_right (a : List TimeDueOrdinal) (x : TimeDueOrdinal) : Nat :=
  bisectRightLoop a x (a.length + 1) 0 a.length

/-- Python `bisect.insort(a, x)`: insert `x` at `bisect_right a x`. -/
def bisect_insort (a : List TimeDueOrdinal) (x : TimeDueOrdinal) :
    List TimeDueOrdinal :=
  a.insertIdx (bisect_right a x) x

/-- Python `list.index(v)`: index of the first element `e` with
`e == v` (CPython compares element-to-value), `None` modelling the
`ValueError` raise. -/
def pyIndex (q : List TimeDueOrdinal) (v : TimeDueOrdinal) : Option Nat :=
  q.findIdx? (fun e => pyEqTD e v)

/-- `TimeDueOrdinal.queue_reposition` (util.py lines 135-141):
`bisect.insort(queue, queue.pop(queue.index(self)))`.  `none` models the
`ValueError` raised by `queue.index` when no element compares equal. -/
def queue_reposition (self : TimeDueOrdinal) (queue : List TimeDueOrdinal) :
    Option (List TimeDueOrdinal) :=
  match pyIndex queue self with
  | none => none
  | some i => some (bisect_insort (queue.eraseIdx i) (queue.getD i ⟨0, none⟩))

/-! ## Message-ID generation (endpoint.py lines 301-311)

`_reset_next_messageID(start)` installs the iterator
`imap(lambda v: v % 65536, count(start))`; `next_messageID` draws from
it.  The iterator state is the underlying `count` value. -/

/-- `Endpoint.next_messageID` acting on the iterator state: returns the
next value `c % 65536` and the advanced state `c + 1`. -/
def next_messageID (c : Nat) : Nat × Nat := (c % 65536, c + 1)

/-- Advancing the message-ID iterator state once. -/
def messageID_advance (c : Nat) : Nat := (next_messageID c).2

/-- The value returned by the `(k+1)`-st call to `next_messageID` on an
iterator seeded with `start`. -/
def messageID_value (start k : Nat) : Nat :=
  (next_messageID (messageID_advance^[k] start)).1

/-! ## `coapy.endpoint.Endpoint` (endpoint.py lines 49-357)

Address families are `Option Nat`: `none` is Python `None` (the
name-only endpoint family), `some f` an `AF_*` constant.  The address
resolver (`socket.getaddrinfo` restricted to its first result, as in
`_canonical_sockinfo`) and the binary address codec (`socket.inet_pton`)
are standard-library collaborators and enter as parameters; resolver
failure (`socket.gaierror`) carries the numeric error code `e.args[0]`.
`inet_pton` is taken total because every text it is applied to here is a
numeric literal previously produced by the resolver. -/

/-- Address family: Python `None`, or a numeric `AF_*` constant. -/
abbrev Family := Option Nat

/-- `socket.EAI_NONAME` (the name-not-found resolver condition); only
its distinctness from other codes matters. -/
def EAI_NONAME : Int := -2

/-- Modelled from the spec: `coapy.COAP_PORT`, defined in the package
root module which is not part of the sources; the spec fixes the
default CoAP port as 5683. -/
def COAP_PORT : Nat := 5683

/-- Modelled from the spec: `coapy.COAPS_PORT`, defined in the package
root module which is not part of the sources; the spec fixes the
default secure-CoAP port as 5684. -/
def COAPS_PORT : Nat := 5684

/-- First `getaddrinfo` result for `(host, port, family)`: either a
`gaierror` code or the resolved `(family, sockaddr)` with the sockaddr
restricted to its `(host, port)` prefix. -/
abbrev Resolver := Str → Nat → Nat → Except Int (Family × (Str × Nat))

/-- `socket.inet_pton(family, text)`: network-byte-order binary form of
a numeric address literal. -/
abbrev Pton := Nat → Str → Str

/-- The identity key of an endpoint: `(family, in_addr, port,
security_mode)` as built by `Endpoint._key_for_sockaddr`. -/
structure EpKey where
  family : Family
  in_addr : Str
  port : Nat
  security_mode : Option Nat
deriving DecidableEq

/-- The `in_addr` component of `_key_for_sockaddr` (endpoint.py lines
205-213): Net-Unicode of the literal when `family` is `None`, otherwise
`inet_pton(family, literal)`. -/
def key_in_addr (pton : Pton) (family : Family) (ipLiteral : Str) : Str :=
  match family with
  | none => to_net_unicode ipLiteral
  | some f => pton f ipLiteral

/-- `Endpoint._key_for_sockaddr` (endpoint.py lines 193-214). -/
def key_for_sockaddr (pton : Pton) (sockaddr : Str × Nat) (family : Family)
    (security_mode : Option Nat) : EpKey :=
  { family := family
    in_addr := key_in_addr pton family sockaddr.1
    port := sockaddr.2
    security_mode := security_mode }

/-- An `Endpoint` instance's attributes.  `uri_host` is the text form
of the address (`inet_ntop` rendering for the internet families, the
raw name otherwise); `cursor` is the message-ID iterator state, absent
until `__init__` seeds it (0 before seeding). -/
structure Ep where
  family : Family
  in_addr : Str
  port : Nat
  security_mode : Option Nat
  uri_host : Str
  cursor : Nat
deriving DecidableEq

/-- The identity-key tuple of an endpoint's own attributes. -/
def keyOfEp (ep : Ep) : EpKey :=
  { family := ep.family, in_addr := ep.in_addr, port := ep.port
    security_mode := ep.security_mode }

/-- `Endpoint._canonical_sockinfo` on the `host`/`port` path (endpoint.py
lines 237-246, the `sockaddr is None` case): no resolution when the
family is `None`, otherwise the strict literal-only `getaddrinfo`
call (`AI_NUMERICHOST | AI_NUMERICSERV`), first result. -/
def canonical_sockinfo_host (resolve : Resolver) (family : Family)
    (host : Str) (port : Nat) : Except Int (Family × (Str × Nat)) :=
  match family with
  | none => .ok (none, (host, port))
  | some f => resolve host port f

/-- `Endpoint.is_same_host` (endpoint.py lines 339-357): resolve `host`
under this endpoint's family; a `gaierror` whose code is not
`EAI_NONAME` is re-raised, `EAI_NONAME` yields `False`; on success the
key of the resolved sockaddr is compared with the endpoint's
`(family, in_addr)`. -/
def is_same_host (ep : Ep) (resolve : Resolver) (pton : Pton) (host : Str) :
    Except Int Bool :=
  match canonical_sockinfo_host resolve ep.family host COAP_PORT with
  | .error e => if e ≠ EAI_NONAME then .error e else .ok false
  | .ok (family, sockaddr) =>
    let k := key_for_sockaddr pton sockaddr family none
    .ok (decide (ep.family = k.family) && decide (ep.in_addr = k.in_addr))

/-! ### The endpoint registry (`Endpoint.__new__`, endpoint.py 269-299)

The class-level dictionary `__EndpointRegistry` maps identity keys to
instances.  Instances are named by numeric identities (`Nat`); `eps`
records each live instance's attributes.  `endpoint_new` receives the
two keys the source computes: `rawKey` is `_key_for_sockaddr(sockaddr,
family)` when a `sockaddr` argument was supplied (`none` otherwise),
and `canonKey` is the key recomputed from the canonicalized
`(family, sockaddr)`; `hostText` is the `uri_host` rendering of the
canonical sockaddr (lines 291-298, via `inet_ntop`).
`_canonical_sockinfo`'s own registry fast path re-queries the same
`rawKey` already found absent, so it does not alter behaviour. -/

/-- The registry state: key-to-instance map, instance attributes, and
the next fresh instance identity. -/
structure RegState where
  reg : List (EpKey × Nat)
  eps : List (Nat × Ep)
  nextId : Nat
deriving DecidableEq

/-- `Endpoint.__EndpointRegistry.get(key)`. -/
def lookupReg (k : EpKey) (st : RegState) : Option Nat :=
  (st.reg.find? (fun p => p.1 == k)).map (·.2)

/-- Attributes of the instance with identity `i`. -/
def lookupEp (i : Nat) (st : RegState) : Option Ep :=
  (st.eps.find? (fun q => q.1 == i)).map (·.2)

/-- Attributes stored by `__new__` for a freshly created instance
(endpoint.py lines 282-298): the key's components, plus the `uri_host`
text. -/
def mkEp (k : EpKey) (hostText : Str) : Ep :=
  { family := k.family, in_addr := k.in_addr, port := k.port
    security_mode := k.security_mode, uri_host := hostText, cursor := 0 }

/-- `Endpoint.__new__` (endpoint.py lines 269-299): look up `rawKey`
when a sockaddr was given; on a miss canonicalize and look up
`canonKey`; on a second miss create and register a new instance under
`canonKey`. -/
def endpoint_new (rawKey : Option EpKey) (canonKey : EpKey)
    (hostText : Str) (st : RegState) : Nat × RegState :=
  match rawKey.bind (fun k => lookupReg k st) with
  | some i => (i, st)
  | none =>
    match lookupReg canonKey st with
    | some i => (i, st)
    | none =>
      (st.nextId,
       { reg := (canonKey, st.nextId) :: st.reg
         eps := (st.nextId, mkEp canonKey hostText) :: st.eps
         nextId := st.nextId + 1 })

/-- The identity key a call to `Endpoint.__new__` derives: the raw
sockaddr key when it is registered, the canonical key otherwise. -/
def derived_key (rawKey : Option EpKey) (canonKey : EpKey) (st : RegState) :
    EpKey :=
  match rawKey with
  | some k => if (lookupReg k st).isSome then k else canonKey
  | none => canonKey

/-- Registry well-formedness: every registered key maps to a live
instance whose attributes realize that key, every live instance is
registered under its own key, and identities are below `nextId`. -/
def RegWF (st : RegState) : Prop :=
  (∀ p ∈ st.reg, (lookupEp p.2 st).map keyOfEp = some p.1 ∧ p.2 < st.nextId) ∧
  (∀ q ∈ st.eps, lookupReg (keyOfEp q.2) st = some q.1 ∧ q.1 < st.nextId)

instance : DecidablePred RegWF := fun _st =>
  inferInstanceAs (Decidable (_ ∧ _))

/-- Reseed the message-ID iterator of instance `i`
(`_reset_next_messageID`, endpoint.py lines 309-311). -/
def setCursor (i : Nat) (start : Nat) (st : RegState) : RegState :=
  { st with
    eps := st.eps.map (fun q => if q.1 == i then (q.1, { q.2 with cursor := start }) else q) }

/-- A full Python construction call `Endpoint(...)`: `type.__call__`
runs `__new__` and then, because the returned object is an instance of
the class, always runs `__init__` on it — also when `__new__` returned
a previously registered instance.  `__init__` (endpoint.py lines
313-320) recomputes `base_uri` (deterministically, to the same value)
and reseeds the message-ID iterator with the fresh random draw
`randStart`. -/
def endpoint_call (rawKey : Option EpKey) (canonKey : EpKey)
    (hostText : Str) (randStart : Nat) (st : RegState) : Nat × RegState :=
  let r := endpoint_new rawKey canonKey hostText st
  (r.1, setCursor r.1 randStart r.2)

/-! ## URI translation (endpoint.py lines 359-503)

`uri_to_options` first resolves its argument against the base URI with
`urlparse.urljoin` and then splits it with `urlparse.urlsplit`; both
are standard-library collaborators.  The embedding therefore takes the
split result of the joined URI as input.  A `SplitResult`'s `scheme`,
`netloc`, `path`, `query` and `fragment` are always `str` (possibly
empty, never `None`); `hostname` (lowercased, brackets stripped) and
`port` are the derived accessors and may be `None`. -/

/-- The fields of a Python `urlparse.SplitResult`. -/
structure SplitUri where
  scheme : Str
  netloc : Str
  path : Str
  query : Str
  fragment : Str
  hostname : Option Str
  port : Option Nat
deriving DecidableEq

/-- CoAP options as consumed and produced by the URI translation:
`coapy.option.UriHost/UriPort/UriPath/UriQuery` values.  The
`value` of a host or port option may be Python `None`
(`uri_from_options` checks for that and raises). -/
inductive COption
  | uriHost (value : Option Str)
  | uriPort (value : Option Nat)
  | uriPath (value : Str)
  | uriQuery (value : Str)
deriving DecidableEq

/-- Exceptions escaping the URI translation: `URIError(msg, ...)`, a
propagated `socket.gaierror(code)`, or a `UnicodeEncodeError` /
`UnicodeDecodeError` from the segment pipeline (tagged with the codec
name, `ascii` or `utf-8`). -/
inductive PyErr
  | uriError (msg : Str)
  | gaiError (code : Int)
  | unicodeError (codec : Str)
deriving DecidableEq

/-- `Endpoint._port_for_scheme` (endpoint.py lines 359-362): dictionary
lookup; for any scheme other than `coap`/`coaps` the source would raise
`KeyError`, but both call sites run after the scheme has been checked,
so the `else` branch is unreachable there. -/
def port_for_scheme (scheme : Str) : Nat :=
  if scheme = "coap".toList then COAP_PORT else COAPS_PORT

/-- The values of the `UriHost` options of `opts`, in order
(`filter(lambda _o: isinstance(_o, coapy.option.UriHost), opts)`). -/
def uriHostValues (opts : List COption) : List (Option Str) :=
  opts.filterMap fun o => match o with | .uriHost v => some v | _ => none

/-- The values of the `UriPort` options of `opts`, in order. -/
def uriPortValues (opts : List COption) : List (Option Nat) :=
  opts.filterMap fun o => match o with | .uriPort v => some v | _ => none

/-- The values of the `UriPath` options of `opts`, in order. -/
def uriPathValues (opts : List COption) : List Str :=
  opts.filterMap fun o => match o with | .uriPath v => some v | _ => none

/-- The values of the `UriQuery` options of `opts`, in order. -/
def uriQueryValues (opts : List COption) : List Str :=
  opts.filterMap fun o => match o with | .uriQuery v => some v | _ => none

/-- The per-segment pipeline of `uri_to_options` (endpoint.py lines
431-433 for path segments and 440-442 for query clauses):
`bytes(segment)` — Python 2 `str()` on the unicode segment, strict
ASCII codec, raising `UnicodeEncodeError` on any character of 128 or
more (the split result is unicode because the module uses
`unicode_literals` and the base URI is unicode) — then
`urllib.unquote`, then `.decode('utf-8')`, raising
`UnicodeDecodeError` when a percent-escape denotes invalid UTF-8. -/
def decode_segment (s : Str) : Except PyErr Str :=
  if ¬(∀ c ∈ s, c.toNat < 128) then .error (.unicodeError "ascii".toList)
  else
    match utf8Decode (pyUnquote s) with
    | some v => .ok v
    | none => .error (.unicodeError "utf-8".toList)

/-- The segment loops of `uri_to_options`: each segment is decoded in
order and the first failure raises out of the loop. -/
def decodeAll : List Str → Except PyErr (List Str)
  | [] => .ok []
  | s :: t =>
    match decode_segment s with
    | .error e => .error e
    | .ok v =>
      match decodeAll t with
      | .error e => .error e
      | .ok vs => .ok (v :: vs)

/-- The path-segment extraction of `uri_to_options` (endpoint.py lines
426-434): if the path is non-empty and not exactly `/`, strip one
leading `/` and split on `/`. -/
def pathSegmentsOf (path : Str) : List Str :=
  if path ≠ [] ∧ path ≠ ['/'] then
    splitOnChar '/' (if path.head? = some '/' then path.tail else path)
  else []

/-- The decoded path-segment sequence of a URI path: the segments
`uri_to_options` extracts, percent-decoded. -/
def pathSegmentsDecoded (path : Str) : List Str :=
  (pathSegmentsOf path).map pyUnquote

/-- The query clauses of a URI query component, as `uri_to_options`
extracts them: absent query gives none, otherwise split on `&`. -/
def queryClausesOf (query : Str) : List Str :=
  if query ≠ [] then splitOnChar '&' query else []

/-- The decoded query-clause sequence of a URI query component. -/
def queryClausesDecoded (query : Str) : List Str :=
  (queryClausesOf query).map pyUnquote

/-- `Endpoint.uri_to_options` (endpoint.py lines 364-444) applied to
the split of the already-joined URI.  The source's absoluteness test is
`(not res.scheme) or ((res.netloc is None) and (res.path is None)) or
res.fragment`; since `SplitResult.netloc` and `.path` are always `str`
and never `None`, the middle disjunct is identically false and is
omitted from the condition below.  Each path segment and query clause
runs through `decode_segment` (`bytes` / `urllib.unquote` / UTF-8
decode), and the first failure propagates out as the raised
`UnicodeEncodeError` or `UnicodeDecodeError`.

`hostOptions` is the host-handling step (endpoint.py lines 411-414):
when the split result has a non-empty hostname, percent-decode it and
emit a `UriHost` option unless `is_same_host` accepts it; a resolver
error propagates out of `uri_to_options`. -/
def hostOptions (ep : Ep) (resolve : Resolver) (pton : Pton)
    (hostname : Option Str) : Except PyErr (List COption) :=
  match hostname with
  | some hn =>
    if hn ≠ [] then
      match is_same_host ep resolve pton (pyUnquote hn) with
      | .error e => .error (.gaiError e)
      | .ok b => .ok (if b then [] else [COption.uriHost (some (pyUnquote hn))])
    else .ok []
  | none => .ok []

/-- `Endpoint.uri_to_options` proper; see the comment on
`hostOptions` above for the embedded source lines. -/
def uri_to_options (ep : Ep) (resolve : Resolver) (pton : Pton)
    (res : SplitUri) : Except PyErr (List COption) :=
  if res.scheme = [] ∨ res.fragment ≠ [] then
    .error (.uriError "not absolute".toList)
  else
    let scheme := lowerStr res.scheme
    if ¬(scheme = "coap".toList ∨ scheme = "coaps".toList) then
      .error (.uriError "invalid scheme".toList)
    else
      match hostOptions ep resolve pton res.hostname with
      | .error e => .error e
      | .ok hostOpts =>
        let port := res.port.getD (port_for_scheme scheme)
        let portOpts := if port ≠ ep.port then [COption.uriPort (some port)] else []
        match decodeAll (pathSegmentsOf res.path) with
        | .error e => .error e
        | .ok segs =>
          match decodeAll (queryClausesOf res.query) with
          | .error e => .error e
          | .ok clauses =>
            .ok (hostOpts ++ portOpts ++ segs.map COption.uriPath ++
              clauses.map COption.uriQuery)

/-- The components handed to `urlparse.urlunsplit` by
`uri_from_options` (`(scheme, netloc, path, query, None)`). -/
structure UriParts where
  scheme : Str
  netloc : Str
  path : Str
  query : Str
deriving DecidableEq

/-- `Endpoint.uri_from_options` (endpoint.py lines 446-503): scheme
from the security mode; host from the first `UriHost` option (quoted
unless a bracketed literal) or the endpoint's `uri_host`; port from the
last `UriPort` option or the endpoint's port, elided from the authority
when it equals the scheme default; path from the `UriPath` options
percent-encoded with an empty safe set; query from the `UriQuery`
options percent-encoded with safe set `?` and joined with `&`.

`hostFromOptions` is the host-selection loop (endpoint.py lines
465-474): the first `UriHost` option wins (there is a `break`), a
`None` value raises, a non-bracketed non-empty host is UTF-8 encoded
and quoted with the default safe set `/`; without any `UriHost` option
the endpoint's `uri_host` is used. -/
def hostFromOptions (ep : Ep) (opts : List COption) : Except PyErr Str :=
  match (uriHostValues opts).head? with
  | none => .ok ep.uri_host
  | some none => .error (.uriError "empty Uri-Host".toList)
  | some (some h) =>
    .ok (if h ≠ [] ∧ h.head? ≠ some '[' then pyQuote ['/'] (utf8Encode h) else h)

/-- The port-selection loop of `uri_from_options` (endpoint.py lines
475-479): every `UriPort` option is visited in order, a `None` value
raises immediately, and the last visited value wins. -/
def portFromOptions (ep : Ep) (opts : List COption) : Except PyErr Nat :=
  (uriPortValues opts).foldlM
    (fun _cur v =>
      match v with
      | none => Except.error (PyErr.uriError "empty Uri-Port".toList)
      | some p => Except.ok p)
    ep.port

/-- `Endpoint.uri_from_options` proper; see the comment on
`hostFromOptions` above for the embedded source lines. -/
def uri_from_options (ep : Ep) (opts : List COption) :
    Except PyErr UriParts :=
  let scheme := if ep.security_mode ≠ none then "coaps".toList else "coap".toList
  match hostFromOptions ep opts with
  | .error e => .error e
  | .ok host =>
    match portFromOptions ep opts with
    | .error e => .error e
    | .ok port =>
      let netloc := if port = port_for_scheme scheme then host
                    else host ++ ':' :: natToStr port
      let elts := [] :: (uriPathValues opts).map (fun s => pyQuote [] (to_net_unicode s))
      let path0 := intercalateChar '/' elts
      let path := if path0 = [] then ['/'] else path0
      let query := intercalateChar '&'
        ((uriQueryValues opts).map (fun q => pyQuote ['?'] (to_net_unicode q)))
      .ok { scheme := scheme, netloc := netloc, path := path, query := query }

/-- An `Endpoint(family=None, host=h)` instance: a name-only endpoint
whose `in_addr` is the Net-Unicode form of the name, with the default
CoAP port, no security mode, and `uri_host = h` (endpoint.py lines
297-298). -/
def mkNameEp (h : Str) : Ep :=
  { family := none, in_addr := to_net_unicode h, port := COAP_PORT
    security_mode := none, uri_host := h, cursor := 0 }

/-- A resolver that always fails; never invoked by name-only endpoints
(`family = none`). -/
def noResolver : Resolver := fun _ _ _ => .error 0

/-- A trivial `inet_pton`; never invoked by name-only endpoints. -/
def noPton : Pton := fun _ s => s

/-! ### Concrete fixtures used by the claim instances -/

/-- The name-only endpoint `Endpoint(family=None, host='h')`. -/
def epH : Ep := mkNameEp "h".toList

/-- Split of `coap://h/a/b?x=1` — scheme and authority matching `epH`. -/
def splitPathQuery : SplitUri :=
  { scheme := "coap".toList, netloc := "h".toList, path := "/a/b".toList
    query := "x=1".toList, fragment := [], hostname := some "h".toList
    port := none }

/-- Split of `coap://h/?x=1` — root path, query only. -/
def splitQueryOnly : SplitUri :=
  { scheme := "coap".toList, netloc := "h".toList, path := "/".toList
    query := "x=1".toList, fragment := [], hostname := some "h".toList
    port := none }

/-- A split result with a scheme but neither authority nor path
(as `urlsplit` represents them: empty strings, not `None`). -/
def splitNoAuthNoPath : SplitUri :=
  { scheme := "coap".toList, netloc := [], path := [], query := []
    fragment := [], hostname := none, port := none }

/-- Split of `coap://h/a%FF` — a path segment whose percent-escape
denotes the byte `0xFF`, which no UTF-8 sequence contains. -/
def splitBadUtf8 : SplitUri :=
  { scheme := "coap".toList, netloc := "h".toList, path := "/a%FF".toList
    query := [], fragment := [], hostname := some "h".toList
    port := none }

/-- The identity key of `Endpoint(family=None, host='name')` with the
default port. -/
def keyName : EpKey := ⟨none, "name".toList, 5683, none⟩

/-- The empty endpoint registry. -/
def regState0 : RegState := ⟨[], [], 0⟩

/-- First construction `Endpoint(sockaddr=('name', 5683), family=None)`
with random message-ID seed 5. -/
def regCall1 : Nat × RegState :=
  endpoint_call (some keyName) keyName "name".toList 5 regState0

/-- Second construction with the same arguments (same identity key) but
random message-ID seed 7, on the registry produced by the first. -/
def regCall2 : Nat × RegState :=
  endpoint_call (some keyName) keyName "name".toList 7 regCall1.2

/-! # Supporting lemmas -/

/-! ## Percent-encoding and string splitting -/

theorem splitOnChar_ne_nil (sep : Char) (s : Str) : splitOnChar sep s ≠ [] := by
  induction s with
  | nil => simp [splitOnChar]
  | cons c t ih =>
    simp only [splitOnChar]
    by_cases h : c = sep
    · simp [h]
    · simp only [h, if_false]
      cases hs : splitOnChar sep t with
      | nil => simp
      | cons p ps => simp

theorem splitOnChar_of_not_mem (sep : Char) {s : Str} (h : sep ∉ s) :
    splitOnChar sep s = [s] := by
  induction s with
  | nil => simp [splitOnChar]
  | cons c t ih =>
    simp only [List.mem_cons, not_or] at h
    have hc : ¬(c = sep) := fun hcc => h.1 hcc.symm
    simp only [splitOnChar, if_neg hc, ih h.2]

theorem splitOnChar_append_cons (sep : Char) {x : Str} (r : Str) (hx : sep ∉ x) :
    splitOnChar sep (x ++ sep :: r) = x :: splitOnChar sep r := by
  induction x with
  | nil => simp [splitOnChar]
  | cons c t ih =>
    simp only [List.mem_cons, not_or] at hx
    have hc : ¬(c = sep) := fun hcc => hx.1 hcc.symm
    simp only [List.cons_append, splitOnChar, if_neg hc, List.append_eq]
    rw [ih hx.2]

theorem splitOnChar_intercalateChar (sep : Char) {xss : List Str}
    (hne : xss ≠ []) (h : ∀ xs ∈ xss, sep ∉ xs) :
    splitOnChar sep (intercalateChar sep xss) = xss := by
  induction xss with
  | nil => exact absurd rfl hne
  | cons x xs ih =>
    cases xs with
    | nil =>
      simp only [intercalateChar]
      exact splitOnChar_of_not_mem sep (h x (List.mem_cons_self _ _))
    | cons y ys =>
      simp only [intercalateChar]
      rw [splitOnChar_append_cons sep _ (h x (List.mem_cons_self _ _))]
      rw [ih (by simp) (fun xs hxs => h xs (List.mem_cons_of_mem _ hxs))]

theorem intercalateChar_eq_nil_iff (sep : Char) (xss : List Str) :
    intercalateChar sep xss = [] ↔ (xss = [] ∨ xss = [[]]) := by
  match xss with
  | [] => simp [intercalateChar]
  | [x] => simp [intercalateChar]
  | x :: y :: ys => simp [intercalateChar]

theorem mem_of_mem_splitOnChar (sep : Char) {s : Str} {xs : Str} {c : Char}
    (hxs : xs ∈ splitOnChar sep s) (hc : c ∈ xs) : c ∈ s := by
  induction s generalizing xs with
  | nil =>
    simp only [splitOnChar, List.mem_singleton] at hxs
    subst hxs
    simp at hc
  | cons d t ih =>
    simp only [splitOnChar] at hxs
    by_cases hd : d = sep
    · rw [if_pos hd] at hxs
      rcases List.mem_cons.mp hxs with h1 | h1
      · subst h1; simp at hc
      · exact List.mem_cons_of_mem _ (ih h1 hc)
    · rw [if_neg hd] at hxs
      cases hsp : splitOnChar sep t with
      | nil => exact absurd hsp (splitOnChar_ne_nil sep t)
      | cons p ps =>
        rw [hsp] at hxs
        rcases List.mem_cons.mp hxs with h1 | h1
        · subst h1
          rcases List.mem_cons.mp hc with h2 | h2
          · exact h2 ▸ List.mem_cons_self _ _
          · exact List.mem_cons_of_mem _ (ih (hsp ▸ List.mem_cons_self _ _) h2)
        · exact List.mem_cons_of_mem _ (ih (hsp ▸ List.mem_cons_of_mem _ h1) hc)

theorem splitOnChar_ne_singleton_nil (sep : Char) {s : Str} (hs : s ≠ []) :
    splitOnChar sep s ≠ [[]] := by
  cases s with
  | nil => exact absurd rfl hs
  | cons c t =>
    simp only [splitOnChar]
    by_cases hc : c = sep
    · rw [if_pos hc]
      intro hh
      exact splitOnChar_ne_nil sep t (List.cons.inj hh).2
    · rw [if_neg hc]
      cases hsp : splitOnChar sep t with
      | nil => simp
      | cons p ps =>
        intro hh
        exact List.noConfusion (List.cons.inj hh).1

theorem hexDigitCharU_facts :
    ∀ m, m < 16 → isHexDigitB (hexDigitCharU m) = true ∧
      hexVal (hexDigitCharU m) = m ∧ hexDigitCharU m ≠ '%' ∧
      hexDigitCharU m ≠ '/' ∧ hexDigitCharU m ≠ '&' := by decide

theorem not_mem_pyQuote {sep : Char} (safe : List Char) {s : Str} (hb : ByteStr s)
    (h1 : isAlwaysSafe sep = false) (h2 : sep ∉ safe) (h3 : sep ≠ '%')
    (h4 : ∀ m, m < 16 → hexDigitCharU m ≠ sep) :
    sep ∉ pyQuote safe s := by
  induction s with
  | nil => simp [pyQuote]
  | cons c t ih =>
    have hbt : ByteStr t := fun x hx => hb x (List.mem_cons_of_mem _ hx)
    have hbc : c.toNat < 256 := hb c (List.mem_cons_self _ _)
    simp only [pyQuote, List.mem_append]
    intro hmem
    rcases hmem with hm | hm
    · by_cases hcs : (isAlwaysSafe c || safe.contains c) = true
      · rw [if_pos hcs] at hm
        simp only [List.mem_singleton] at hm
        subst hm
        rcases Bool.or_eq_true_iff.mp hcs with h | h
        · rw [h1] at h; exact Bool.noConfusion h
        · exact h2 (by simpa using h)
      · rw [if_neg hcs] at hm
        simp only [List.mem_cons, List.mem_singleton, List.not_mem_nil, or_false] at hm
        rcases hm with h | h | h
        · exact h3 h
        · exact h4 (c.toNat / 16) (by omega) h.symm
        · exact h4 (c.toNat % 16) (by omega) h.symm
    · exact ih hbt hm

theorem pyUnquote_pyQuote (safe : List Char) {s : Str} (hb : ByteStr s)
    (hp : '%' ∉ safe) : pyUnquote (pyQuote safe s) = s := by
  induction s with
  | nil => simp [pyQuote, pyUnquote]
  | cons c t ih =>
    have hbt : ByteStr t := fun x hx => hb x (List.mem_cons_of_mem _ hx)
    have hbc : c.toNat < 256 := hb c (List.mem_cons_self _ _)
    by_cases hcs : (isAlwaysSafe c || safe.contains c) = true
    · have hcp : ¬(c = '%') := by
        intro hc
        subst hc
        rcases Bool.or_eq_true_iff.mp hcs with h | h
        · revert h; decide
        · exact hp (by simpa using h)
      simp only [pyQuote, if_pos hcs, List.singleton_append]
      rw [pyUnquote.eq_def]
      simp only [if_neg hcp]
      rw [ih hbt]
    · have h16a : c.toNat / 16 < 16 := by omega
      have h16b : c.toNat % 16 < 16 := by omega
      obtain ⟨hxa, hva, hpa, _, _⟩ := hexDigitCharU_facts _ h16a
      obtain ⟨hxb, hvb, hpb, _, _⟩ := hexDigitCharU_facts _ h16b
      simp only [pyQuote, if_neg hcs, List.cons_append, List.nil_append]
      rw [pyUnquote.eq_def]
      simp only [if_pos rfl, if_neg hpa, if_neg hpb,
        if_pos (by rw [hxa, hxb]; rfl :
          (isHexDigitB (hexDigitCharU (c.toNat / 16)) &&
           isHexDigitB (hexDigitCharU (c.toNat % 16))) = true)]
      rw [hva, hvb, ih hbt]
      have hsum : 16 * (c.toNat / 16) + c.toNat % 16 = c.toNat := by omega
      rw [hsum, Char.ofNat_toNat]
      simp

theorem char_toNat_ofNat {k : Nat} (h : k < 256) : (Char.ofNat k).toNat = k := by
  unfold Char.ofNat
  rw [dif_pos (by constructor; omega : Nat.isValidChar k)]
  rfl

theorem hexVal_lt_16 {c : Char} (h : isHexDigitB c = true) : hexVal c < 16 := by
  simp only [isHexDigitB, Bool.or_eq_true, Bool.and_eq_true, decide_eq_true_eq] at h
  unfold hexVal
  by_cases h1 : (48 ≤ c.toNat && c.toNat ≤ 57) = true
  · rw [if_pos h1]
    simp only [Bool.and_eq_true, decide_eq_true_eq] at h1
    omega
  · rw [if_neg h1]
    by_cases h2 : (65 ≤ c.toNat && c.toNat ≤ 70) = true
    · rw [if_pos h2]
      simp only [Bool.and_eq_true, decide_eq_true_eq] at h2
      omega
    · rw [if_neg h2]
      simp only [Bool.and_eq_true, decide_eq_true_eq, not_and, not_le] at h1 h2
      omega

theorem mem_pyUnquote {s : Str} {c : Char} (hc : c ∈ pyUnquote s) :
    c ∈ s ∨ c.toNat < 256 := by
  induction s using pyUnquote.induct with
  | case1 => simp [pyUnquote] at hc
  | case2 => simp [pyUnquote] at hc; left; simp [hc]
  | case3 a =>
    simp [pyUnquote] at hc
    left
    rcases hc with h | h <;> simp [h]
  | case4 b r ih =>
    rw [pyUnquote.eq_def] at hc
    simp only [eq_self_iff_true, if_true] at hc
    rcases List.mem_cons.mp hc with h | h
    · left; simp [h]
    · rcases ih h with h1 | h1
      · left; exact List.mem_cons_of_mem _ h1
      · right; exact h1
  | case5 a r hna ih =>
    rw [pyUnquote.eq_def] at hc
    simp only [eq_self_iff_true, if_true, if_neg hna] at hc
    rcases List.mem_cons.mp hc with h | h
    · left; simp [h]
    · rcases List.mem_cons.mp h with h2 | h2
      · left; simp [h2]
      · rcases ih h2 with h1 | h1
        · left
          rcases List.mem_cons.mp h1 with h3 | h3 <;> simp [h3]
        · right; exact h1
  | case6 a b r hna hnb hab ih =>
    rw [pyUnquote.eq_def] at hc
    simp only [eq_self_iff_true, if_true, if_neg hna, if_neg hnb, if_pos hab] at hc
    rcases List.mem_cons.mp hc with h | h
    · right
      obtain ⟨hha, hhb⟩ := Bool.and_eq_true_iff.mp hab
      have va := hexVal_lt_16 hha
      have vb := hexVal_lt_16 hhb
      rw [h, char_toNat_ofNat (by omega)]
      omega
    · rcases ih h with h1 | h1
      · left; simp [h1]
      · right; exact h1
  | case7 a b r hna hnb hab ih =>
    rw [pyUnquote.eq_def] at hc
    simp only [eq_self_iff_true, if_true, if_neg hna, if_neg hnb, if_neg hab] at hc
    rcases List.mem_cons.mp hc with h | h
    · left; simp [h]
    · rcases ih h with h1 | h1
      · left; exact List.mem_cons_of_mem _ h1
      · right; exact h1
  | case8 d t hnd ih =>
    rw [pyUnquote.eq_def] at hc
    simp only [if_neg hnd] at hc
    rcases List.mem_cons.mp hc with h | h
    · left; simp [h]
    · rcases ih h with h1 | h1
      · left; exact List.mem_cons_of_mem _ h1
      · right; exact h1

theorem byteStr_pyUnquote {s : Str} (hb : ByteStr s) : ByteStr (pyUnquote s) :=
  fun c hc => (mem_pyUnquote hc).elim (hb c) id

theorem pyQuote_eq_nil_iff (safe : List Char) (s : Str) :
    pyQuote safe s = [] ↔ s = [] := by
  cases s with
  | nil => simp [pyQuote]
  | cons c t =>
    simp only [pyQuote]
    constructor
    · intro h
      by_cases hcs : (isAlwaysSafe c || safe.contains c) = true
      · rw [if_pos hcs] at h; exact absurd h (by simp)
      · rw [if_neg hcs] at h; exact absurd h (by simp)
    · intro h; exact List.noConfusion h

theorem pyUnquote_eq_nil_iff (s : Str) : pyUnquote s = [] ↔ s = [] := by
  induction s using pyUnquote.induct with
  | case1 => simp [pyUnquote]
  | case2 => simp [pyUnquote]
  | case3 a => simp [pyUnquote]
  | case4 b r ih =>
    rw [pyUnquote.eq_def]
    simp only [eq_self_iff_true, if_true]
    simp
  | case5 a r hna ih =>
    rw [pyUnquote.eq_def]
    simp only [eq_self_iff_true, if_true, if_neg hna]
    simp
  | case6 a b r hna hnb hab ih =>
    rw [pyUnquote.eq_def]
    simp only [eq_self_iff_true, if_true, if_neg hna, if_neg hnb, if_pos hab]
    simp
  | case7 a b r hna hnb hab ih =>
    rw [pyUnquote.eq_def]
    simp only [eq_self_iff_true, if_true, if_neg hna, if_neg hnb, if_neg hab]
    simp
  | case8 d t hnd ih =>
    rw [pyUnquote.eq_def]
    simp only [if_neg hnd]
    simp

theorem pathSegmentsOf_ne_singleton_nil (p : Str) : pathSegmentsOf p ≠ [[]] := by
  unfold pathSegmentsOf
  by_cases hg : p ≠ [] ∧ p ≠ ['/']
  · rw [if_pos hg]
    apply splitOnChar_ne_singleton_nil
    by_cases hh : p.head? = some '/'
    · rw [if_pos hh]
      intro ht
      cases p with
      | nil => exact hg.1 rfl
      | cons c t =>
        simp only [List.head?] at hh
        simp only [List.tail] at ht
        subst ht
        exact hg.2 (by rw [Option.some.inj hh])
    · rw [if_neg hh]
      exact hg.1
  · rw [if_neg hg]
    simp

/-! ## The segment decode pipeline -/

theorem utf8Decode_ascii {s : Str} (h : ∀ c ∈ s, c.toNat < 128) :
    utf8Decode s = some s := by
  induction s with
  | nil => rfl
  | cons c t ih =>
    have hc : c.toNat < 128 := h c (List.mem_cons_self _ _)
    have ht : utf8DecodeF t.length t = some t :=
      ih (fun x hx => h x (List.mem_cons_of_mem _ hx))
    show utf8DecodeF (c :: t).length (c :: t) = some (c :: t)
    rw [List.length_cons, utf8DecodeF.eq_def]
    simp only [hc, if_true, ht, Option.map_some']

theorem decode_segment_ascii {s : Str} (h1 : ∀ c ∈ s, c.toNat < 128)
    (h2 : ∀ c ∈ pyUnquote s, c.toNat < 128) :
    decode_segment s = .ok (pyUnquote s) := by
  unfold decode_segment
  rw [if_neg (not_not_intro h1), utf8Decode_ascii h2]

theorem decodeAll_ascii {l : List Str}
    (h : ∀ s ∈ l,
      (∀ c ∈ s, c.toNat < 128) ∧ (∀ c ∈ pyUnquote s, c.toNat < 128)) :
    decodeAll l = .ok (l.map pyUnquote) := by
  induction l with
  | nil => rfl
  | cons s t ih =>
    have hs := h s (List.mem_cons_self _ _)
    have ht := ih (fun x hx => h x (List.mem_cons_of_mem _ hx))
    simp only [decodeAll]
    rw [decode_segment_ascii hs.1 hs.2, ht]
    rfl

theorem decode_segment_error_unicode {s : Str} {e : PyErr}
    (h : decode_segment s = .error e) : ∃ msg, e = PyErr.unicodeError msg := by
  unfold decode_segment at h
  by_cases ha : ¬(∀ c ∈ s, c.toNat < 128)
  · rw [if_pos ha] at h
    exact ⟨_, (Except.error.inj h).symm⟩
  · rw [if_neg ha] at h
    cases hu : utf8Decode (pyUnquote s) with
    | some v => rw [hu] at h; exact absurd h (by simp)
    | none => rw [hu] at h; exact ⟨_, (Except.error.inj h).symm⟩

theorem decodeAll_error_unicode {l : List Str} {e : PyErr}
    (h : decodeAll l = .error e) : ∃ msg, e = PyErr.unicodeError msg := by
  induction l with
  | nil => exact absurd h (by simp [decodeAll])
  | cons s t ih =>
    simp only [decodeAll] at h
    cases hd : decode_segment s with
    | error e2 =>
      rw [hd] at h
      have he : e2 = e := Except.error.inj h
      obtain ⟨msg, hm⟩ := decode_segment_error_unicode hd
      exact ⟨msg, he ▸ hm⟩
    | ok v =>
      rw [hd] at h
      cases ht : decodeAll t with
      | error e2 =>
        rw [ht] at h
        have he : e2 = e := Except.error.inj h
        rw [he] at ht
        exact ih ht
      | ok vs => rw [ht] at h; exact absurd h (by simp)

/-- Unfolding of `uri_to_options` past the absoluteness, scheme and
host steps: what remains is the decode pipeline over path segments and
query clauses. -/
theorem uri_to_options_eq (ep : Ep) (resolve : Resolver) (pton : Pton)
    (res : SplitUri) (hna : ¬(res.scheme = [] ∨ res.fragment ≠ []))
    (hsc : lowerStr res.scheme = "coap".toList ∨
      lowerStr res.scheme = "coaps".toList)
    {hostOpts : List COption}
    (hok : hostOptions ep resolve pton res.hostname = .ok hostOpts) :
    uri_to_options ep resolve pton res =
      match decodeAll (pathSegmentsOf res.path) with
      | .error e => .error e
      | .ok segs =>
        match decodeAll (queryClausesOf res.query) with
        | .error e => .error e
        | .ok clauses =>
          .ok (hostOpts ++
            (if res.port.getD (port_for_scheme (lowerStr res.scheme)) ≠ ep.port
             then [COption.uriPort (some (res.port.getD
               (port_for_scheme (lowerStr res.scheme))))]
             else []) ++
            segs.map COption.uriPath ++ clauses.map COption.uriQuery) := by
  unfold uri_to_options
  rw [if_neg hna, if_neg (not_not_intro hsc), hok]

/-! ## Message-ID sequence lemmas -/

theorem messageID_advance_iterate (start k : Nat) :
    messageID_advance^[k] start = start + k := by
  induction k with
  | zero => simp
  | succ n ih => rw [Function.iterate_succ_apply', ih]; rfl

theorem messageID_value_eq (start k : Nat) :
    messageID_value start k = (start + k) % 65536 := by
  unfold messageID_value
  rw [messageID_advance_iterate]
  rfl


/-- For a `family = None` endpoint, `_canonical_sockinfo` performs no
resolution, so `is_same_host` cannot fail and compares Net-Unicode
names. -/
theorem is_same_host_of_family_none (ep : Ep) (resolve : Resolver)
    (pton : Pton) (host : Str) (hfam : ep.family = none) :
    is_same_host ep resolve pton host =
      .ok (decide (ep.in_addr = to_net_unicode host)) := by
  unfold is_same_host canonical_sockinfo_host
  rw [hfam]
  simp [key_for_sockaddr, key_in_addr]

/-! # Claim theorems -/

/-- C6: for every endpoint message-ID iterator state, `next_messageID`
returns the current 16-bit cursor value — a number in [0, 65535] — and
advances the cursor by one modulo 65536; the 65536 consecutive values
returned are pairwise distinct, and the value sequence is strictly
increasing except that a step fails to increase only at the single wrap
point of the cycle (where the previous value is 65535 and the next is
0). -/
theorem next_messageID_spec (start : Nat) :
    ((next_messageID start).1 = start % 65536 ∧
     (next_messageID start).1 < 65536 ∧
     (next_messageID start).2 % 65536 = ((next_messageID start).1 + 1) % 65536) ∧
    (∀ k, messageID_value start k = (start + k) % 65536) ∧
    (∀ i j, i < 65536 → j < 65536 →
       messageID_value start i = messageID_value start j → i = j) ∧
    (∀ i, i + 1 < 65536 →
       (messageID_value start (i + 1) = messageID_value start i + 1 ∨
        (messageID_value start i = 65535 ∧ messageID_value start (i + 1) = 0))) ∧
    (∀ i j, i + 1 < 65536 → j + 1 < 65536 →
       ¬ messageID_value start i < messageID_value start (i + 1) →
       ¬ messageID_value start j < messageID_value start (j + 1) → i = j) := by
  refine ⟨⟨rfl, ?_, ?_⟩, messageID_value_eq start, ?_, ?_, ?_⟩
  · exact Nat.mod_lt _ (by omega)
  · show (start + 1) % 65536 = (start % 65536 + 1) % 65536
    omega
  · intro i j hi hj h
    rw [messageID_value_eq, messageID_value_eq] at h
    omega
  · intro i h1
    rw [messageID_value_eq, messageID_value_eq]
    omega
  · intro i j hi hj h1 h2
    rw [messageID_value_eq, messageID_value_eq] at h1 h2
    omega

/-- Witness for C6 at iterator state 7, step 0. -/
theorem next_messageID_spec_witness :
    0 + 1 < 65536 ∧
    (messageID_value 7 (0 + 1) = messageID_value 7 0 + 1 ∨
     (messageID_value 7 0 = 65535 ∧ messageID_value 7 (0 + 1) = 0)) :=
  ⟨by decide, (next_messageID_spec 7).2.2.2.1 0 (by decide)⟩

/-- C7: `is_same_host` resolves the host under the endpoint's family;
a name-not-found resolver failure (`EAI_NONAME`) yields `False` without
raising, any other resolver failure propagates as an error, and on
successful resolution the result is whether the resolved
`(family, in_addr)` equals the endpoint's own.  For a `family = None`
endpoint resolution cannot fail and the comparison is against the
Net-Unicode name. -/
theorem is_same_host_spec (ep : Ep) (resolve : Resolver) (pton : Pton)
    (host : Str) :
    (∀ f, ep.family = some f → resolve host COAP_PORT f = .error EAI_NONAME →
       is_same_host ep resolve pton host = .ok false) ∧
    (∀ f e, ep.family = some f → resolve host COAP_PORT f = .error e →
       e ≠ EAI_NONAME → is_same_host ep resolve pton host = .error e) ∧
    (∀ f fam sa, ep.family = some f → resolve host COAP_PORT f = .ok (fam, sa) →
       is_same_host ep resolve pton host =
         .ok (decide (ep.family = fam) &&
              decide (ep.in_addr = key_in_addr pton fam sa.1))) ∧
    (ep.family = none →
       is_same_host ep resolve pton host =
         .ok (decide (ep.in_addr = to_net_unicode host))) := by
  refine ⟨?_, ?_, ?_, ?_⟩
  · intro f hf hres
    unfold is_same_host canonical_sockinfo_host
    rw [hf]
    simp only [hres]
    simp
  · intro f e hf hres hne
    unfold is_same_host canonical_sockinfo_host
    rw [hf]
    simp only [hres]
    rw [if_pos hne]
  · intro f fam sa hf hres
    unfold is_same_host canonical_sockinfo_host
    rw [hf]
    simp only [hres]
    rfl
  · intro hf
    unfold is_same_host canonical_sockinfo_host
    rw [hf]
    simp [key_for_sockaddr, key_in_addr]

/-- Witness for C7: a name-only endpoint compared against its own
name. -/
theorem is_same_host_spec_witness :
    epH.family = none ∧
    is_same_host epH noResolver noPton ("h".toList) =
      .ok (decide (epH.in_addr = to_net_unicode ("h".toList))) :=
  ⟨by decide, (is_same_host_spec epH noResolver noPton ("h".toList)).2.2.2 (by decide)⟩

/-- C8 (code evaluated at the failing input): with the queue that was
sorted as `[A(2), X(3), B(4), S(5)]` and whose entry `S` (object
identity 3) has had its due time changed from 5 to 3,
`queue_reposition(S)` does not restore sortedness: `queue.index(S)`
finds the first entry comparing equal by due time — `X`, not `S` —
pops and reinserts `X`, and returns the queue unchanged and unsorted.
Entry identities appear as the first component, due times as the
second. -/
theorem queue_reposition_failing_input :
    SortedByTime [⟨0, some 2⟩, ⟨1, some 3⟩, ⟨2, some 4⟩, ⟨3, some 5⟩] ∧
    (⟨3, some 3⟩ : TimeDueOrdinal) ∈
      [⟨0, some 2⟩, ⟨1, some 3⟩, ⟨2, some 4⟩, (⟨3, some 3⟩ : TimeDueOrdinal)] ∧
    queue_reposition ⟨3, some 3⟩
        [⟨0, some 2⟩, ⟨1, some 3⟩, ⟨2, some 4⟩, ⟨3, some 3⟩] =
      some [⟨0, some 2⟩, ⟨1, some 3⟩, ⟨2, some 4⟩, ⟨3, some 3⟩] ∧
    ¬ SortedByTime [⟨0, some 2⟩, ⟨1, some 3⟩, ⟨2, some 4⟩, ⟨3, some 3⟩] := by
  decide

/-- C2 (code evaluated at the failing input): constructing
`Endpoint(sockaddr=('name', 5683), family=None)` twice returns the same
registered instance, but the second construction still runs
`__init__`, which reseeds the instance's message-ID iterator with a
fresh random draw (5 on the first call, 7 on the second) and recomputes
`base_uri`; the repeated resolution therefore mutates the returned
endpoint instead of leaving it unchanged. -/
theorem endpoint_reinit_failing_input :
    regCall2.1 = regCall1.1 ∧
    (lookupEp regCall1.1 regCall1.2).map Ep.cursor = some 5 ∧
    (lookupEp regCall2.1 regCall2.2).map Ep.cursor = some 7 ∧
    (5 : Nat) ≠ 7 := by
  decide

/-- C9 counterexample: the claim says the query safe set excludes `?`
so that a literal `?` in a query value is escaped; the source passes
`'?'` as the safe set of `urllib.quote`, so a `UriQuery` value `?`
reaches the query component unescaped (not as `%3F`). -/
theorem uriQuery_escape_counterexample :
    uri_from_options epH [COption.uriQuery ['?']] =
      .ok { scheme := "coap".toList, netloc := "h".toList,
            path := ['/'], query := ['?'] } ∧
    (['?'] : Str) ≠ "%3F".toList := by decide

/-- C9 (amended): in `uri_from_options` the value of every `UriQuery`
option is percent-encoded with a safe set that includes `?` (so a
literal `?` is preserved unescaped, while other non-always-safe
characters such as `=` are escaped), the encoded clauses are joined
with `&` in list order, and the query component is absent (empty) when
no `UriQuery` options exist. -/
theorem uri_from_options_query_spec (ep : Ep) (opts : List COption)
    (parts : UriParts) (h : uri_from_options ep opts = .ok parts) :
    parts.query = intercalateChar '&'
        ((uriQueryValues opts).map (fun q => pyQuote ['?'] (to_net_unicode q))) ∧
    (uriQueryValues opts = [] → parts.query = []) ∧
    pyQuote ['?'] ['?'] = ['?'] ∧
    pyQuote ['?'] ['='] = "%3D".toList := by
  unfold uri_from_options at h
  cases hh : hostFromOptions ep opts with
  | error e => rw [hh] at h; exact absurd h (by simp)
  | ok host =>
    rw [hh] at h
    cases hp : portFromOptions ep opts with
    | error e => rw [hp] at h; exact absurd h (by simp)
    | ok port =>
      rw [hp] at h
      have hinj := Except.ok.inj h
      subst hinj
      refine ⟨rfl, ?_, by decide, by decide⟩
      intro hq
      simp [hq, intercalateChar]

/-- Witness for the amended C9 at `epH` with the single option
`UriQuery('?')`. -/
theorem uri_from_options_query_spec_witness :
    ({ scheme := "coap".toList, netloc := "h".toList, path := ['/'],
       query := ['?'] } : UriParts).query =
      intercalateChar '&'
        ((uriQueryValues [COption.uriQuery ['?']]).map
          (fun q => pyQuote ['?'] (to_net_unicode q))) ∧
    (uriQueryValues [COption.uriQuery ['?']] = [] →
      ({ scheme := "coap".toList, netloc := "h".toList, path := ['/'],
         query := ['?'] } : UriParts).query = []) ∧
    pyQuote ['?'] ['?'] = ['?'] ∧
    pyQuote ['?'] ['='] = "%3D".toList :=
  uri_from_options_query_spec epH [COption.uriQuery ['?']] _ (by decide)

/-- C5 counterexample: a split result with a scheme (`coap`) but
neither authority nor path and no fragment.  The claim says
`uri_to_options` raises `UriError('not absolute')` for it; the source's
test `(res.netloc is None) and (res.path is None)` can never be true
(the splitter yields empty strings, never `None`), so the call
succeeds, returning an option list. -/
theorem no_authority_no_path_counterexample :
    splitNoAuthNoPath.netloc = [] ∧ splitNoAuthNoPath.path = [] ∧
    splitNoAuthNoPath.scheme ≠ [] ∧ splitNoAuthNoPath.fragment = [] ∧
    uri_to_options epH noResolver noPton splitNoAuthNoPath = .ok [] := by
  decide

/-- C5 (amended): for a `family = None` endpoint, `uri_to_options`
raises `UriError('not absolute')` exactly when the (joined, split) URI
has no scheme or has a fragment; the no-authority-and-no-path clause of
the claim never fires because the splitter represents absent authority
and path as empty strings while the code compares them with `None`;
`UriError('invalid scheme')` is raised exactly when the absoluteness
test passes but the lowercased scheme is neither `coap` nor `coaps`;
past those two tests the call returns an option list exactly when every
path segment and query clause survives the `bytes`/`urllib.unquote`/
UTF-8-decode pipeline, and any remaining failure is a `UnicodeError`
(`UnicodeEncodeError` or `UnicodeDecodeError`), never a `UriError`. -/
theorem uri_to_options_error_spec (ep : Ep) (resolve : Resolver)
    (pton : Pton) (res : SplitUri) (hfam : ep.family = none) :
    (uri_to_options ep resolve pton res =
        .error (.uriError "not absolute".toList) ↔
      (res.scheme = [] ∨ res.fragment ≠ [])) ∧
    (uri_to_options ep resolve pton res =
        .error (.uriError "invalid scheme".toList) ↔
      (¬(res.scheme = [] ∨ res.fragment ≠ []) ∧
       ¬(lowerStr res.scheme = "coap".toList ∨
         lowerStr res.scheme = "coaps".toList))) ∧
    ((¬(res.scheme = [] ∨ res.fragment ≠ []) ∧
      (lowerStr res.scheme = "coap".toList ∨
       lowerStr res.scheme = "coaps".toList)) →
      ((∃ opts, uri_to_options ep resolve pton res = .ok opts) ↔
        ((∃ segs, decodeAll (pathSegmentsOf res.path) = .ok segs) ∧
         (∃ clauses, decodeAll (queryClausesOf res.query) = .ok clauses))) ∧
      (∀ e, uri_to_options ep resolve pton res = .error e →
        ∃ msg, e = PyErr.unicodeError msg)) := by
  have hmsg : ("not absolute".toList : Str) ≠ "invalid scheme".toList := by
    decide
  have hhost : ∃ hostOpts,
      hostOptions ep resolve pton res.hostname = .ok hostOpts := by
    cases res.hostname with
    | none => exact ⟨[], rfl⟩
    | some hn =>
      by_cases hne : hn ≠ []
      · by_cases hd : ep.in_addr = to_net_unicode (pyUnquote hn)
        · refine ⟨[], ?_⟩
          simp only [hostOptions]
          rw [if_pos hne, is_same_host_of_family_none ep resolve pton _ hfam]
          simp [hd]
        · refine ⟨[COption.uriHost (some (pyUnquote hn))], ?_⟩
          simp only [hostOptions]
          rw [if_pos hne, is_same_host_of_family_none ep resolve pton _ hfam]
          simp [hd]
      · refine ⟨[], ?_⟩
        simp only [hostOptions]
        rw [if_neg hne]
  obtain ⟨hostOpts, hok⟩ := hhost
  by_cases hna : (res.scheme = [] ∨ res.fragment ≠ [])
  · have hval : uri_to_options ep resolve pton res =
        .error (.uriError "not absolute".toList) := by
      unfold uri_to_options
      rw [if_pos hna]
    refine ⟨?_, ?_, ?_⟩
    · rw [hval]
      exact ⟨fun _ => hna, fun _ => rfl⟩
    · rw [hval]
      constructor
      · intro h
        exact absurd (PyErr.uriError.inj (Except.error.inj h)) hmsg
      · intro h
        exact absurd hna h.1
    · intro h
      exact absurd hna h.1
  · by_cases hsc : (lowerStr res.scheme = "coap".toList ∨
        lowerStr res.scheme = "coaps".toList)
    · have heq := uri_to_options_eq ep resolve pton res hna hsc hok
      cases hp : decodeAll (pathSegmentsOf res.path) with
      | error e1 =>
        have hval : uri_to_options ep resolve pton res = .error e1 := by
          rw [heq, hp]
        obtain ⟨msg, hm⟩ := decodeAll_error_unicode hp
        refine ⟨?_, ?_, ?_⟩
        · rw [hval]
          constructor
          · intro h
            rw [hm] at h
            exact absurd (Except.error.inj h) (by simp)
          · intro h
            exact absurd h hna
        · rw [hval]
          constructor
          · intro h
            rw [hm] at h
            exact absurd (Except.error.inj h) (by simp)
          · intro h
            exact absurd hsc h.2
        · intro _
          refine ⟨?_, ?_⟩
          · constructor
            · intro hopt
              obtain ⟨opts, ho⟩ := hopt
              rw [hval] at ho
              exact absurd ho (by simp)
            · intro hdec
              obtain ⟨segs, hs⟩ := hdec.1
              exact Except.noConfusion hs
          · intro e he
            rw [hval] at he
            exact ⟨msg, by rw [← Except.error.inj he, hm]⟩
      | ok segs =>
        cases hq : decodeAll (queryClausesOf res.query) with
        | error e1 =>
          have hval : uri_to_options ep resolve pton res = .error e1 := by
            rw [heq, hp, hq]
          obtain ⟨msg, hm⟩ := decodeAll_error_unicode hq
          refine ⟨?_, ?_, ?_⟩
          · rw [hval]
            constructor
            · intro h
              rw [hm] at h
              exact absurd (Except.error.inj h) (by simp)
            · intro h
              exact absurd h hna
          · rw [hval]
            constructor
            · intro h
              rw [hm] at h
              exact absurd (Except.error.inj h) (by simp)
            · intro h
              exact absurd hsc h.2
          · intro _
            refine ⟨?_, ?_⟩
            · constructor
              · intro hopt
                obtain ⟨opts, ho⟩ := hopt
                rw [hval] at ho
                exact absurd ho (by simp)
              · intro hdec
                obtain ⟨clauses, hc⟩ := hdec.2
                exact Except.noConfusion hc
            · intro e he
              rw [hval] at he
              exact ⟨msg, by rw [← Except.error.inj he, hm]⟩
        | ok clauses =>
          have hval : uri_to_options ep resolve pton res =
              .ok (hostOpts ++
                (if res.port.getD (port_for_scheme (lowerStr res.scheme)) ≠
                    ep.port
                 then [COption.uriPort (some (res.port.getD
                   (port_for_scheme (lowerStr res.scheme))))]
                 else []) ++
                segs.map COption.uriPath ++
                clauses.map COption.uriQuery) := by
            rw [heq, hp, hq]
          refine ⟨?_, ?_, ?_⟩
          · rw [hval]
            constructor
            · intro h
              exact absurd h (by simp)
            · intro h
              exact absurd h hna
          · rw [hval]
            constructor
            · intro h
              exact absurd h (by simp)
            · intro h
              exact absurd hsc h.2
          · intro _
            refine ⟨?_, ?_⟩
            · exact ⟨fun _ => ⟨⟨segs, rfl⟩, ⟨clauses, rfl⟩⟩, fun _ => ⟨_, hval⟩⟩
            · intro e he
              rw [hval] at he
              exact absurd he (by simp)
    · have hval : uri_to_options ep resolve pton res =
          .error (.uriError "invalid scheme".toList) := by
        unfold uri_to_options
        rw [if_neg hna, if_pos hsc]
      refine ⟨?_, ?_, ?_⟩
      · rw [hval]
        constructor
        · intro h
          exact absurd (PyErr.uriError.inj (Except.error.inj h)).symm hmsg
        · intro h
          exact absurd h hna
      · rw [hval]
        exact ⟨fun _ => ⟨hna, hsc⟩, fun _ => rfl⟩
      · intro h
        exact absurd h.2 hsc

/-- Witness for the amended C5: the `coap://h/a/b?x=1` split against
`epH` passes the absoluteness and scheme tests, every segment and
clause decodes, and the call succeeds. -/
theorem uri_to_options_error_spec_witness :
    epH.family = none ∧
    ((uri_to_options epH noResolver noPton splitPathQuery =
        .error (.uriError "not absolute".toList) ↔
      (splitPathQuery.scheme = [] ∨ splitPathQuery.fragment ≠ [])) ∧
    (uri_to_options epH noResolver noPton splitPathQuery =
        .error (.uriError "invalid scheme".toList) ↔
      (¬(splitPathQuery.scheme = [] ∨ splitPathQuery.fragment ≠ []) ∧
       ¬(lowerStr splitPathQuery.scheme = "coap".toList ∨
         lowerStr splitPathQuery.scheme = "coaps".toList))) ∧
    ((¬(splitPathQuery.scheme = [] ∨ splitPathQuery.fragment ≠ []) ∧
      (lowerStr splitPathQuery.scheme = "coap".toList ∨
       lowerStr splitPathQuery.scheme = "coaps".toList)) →
      ((∃ opts, uri_to_options epH noResolver noPton splitPathQuery =
          .ok opts) ↔
        ((∃ segs, decodeAll (pathSegmentsOf splitPathQuery.path) =
            .ok segs) ∧
         (∃ clauses, decodeAll (queryClausesOf splitPathQuery.query) =
            .ok clauses))) ∧
      (∀ e, uri_to_options epH noResolver noPton splitPathQuery = .error e →
        ∃ msg, e = PyErr.unicodeError msg))) :=
  ⟨by decide,
   uri_to_options_error_spec epH noResolver noPton splitPathQuery (by decide)⟩

/-- Option lists produced by the host-handling step are empty or a
single `UriHost` with a non-`None` value. -/
theorem hostOptions_ok_shape (ep : Ep) (resolve : Resolver) (pton : Pton)
    (hostname : Option Str) (l : List COption)
    (h : hostOptions ep resolve pton hostname = .ok l) :
    l = [] ∨ ∃ v, l = [COption.uriHost (some v)] := by
  cases hostname with
  | none =>
    left
    simpa [hostOptions] using (Except.ok.inj h).symm
  | some hn =>
    simp only [hostOptions] at h
    by_cases hne : hn ≠ []
    · rw [if_pos hne] at h
      cases his : is_same_host ep resolve pton (pyUnquote hn) with
      | error e => rw [his] at h; exact absurd h (by simp)
      | ok b =>
        rw [his] at h
        have hinj := Except.ok.inj h
        cases b with
        | true => left; simpa using hinj.symm
        | false => right; exact ⟨pyUnquote hn, by simpa using hinj.symm⟩
    · rw [if_neg hne] at h
      left
      exact (Except.ok.inj h).symm

/-- C4: on the endpoint whose host and port match the URI
`coap://h/a/b?x=1`, `uri_to_options` omits `UriHost` and `UriPort` and
returns exactly `[UriPath('a'), UriPath('b'), UriQuery('x=1')]`; and in
general any successful `uri_to_options` result has the fixed shape
`UriHost? ++ UriPort? ++ UriPath* ++ UriQuery*` with path segments and
query clauses in source order. -/
theorem uri_to_options_order_spec :
    uri_to_options epH noResolver noPton splitPathQuery =
      .ok [COption.uriPath "a".toList, COption.uriPath "b".toList,
           COption.uriQuery "x=1".toList] ∧
    (∀ (ep : Ep) (resolve : Resolver) (pton : Pton) (res : SplitUri)
       (opts : List COption),
       uri_to_options ep resolve pton res = .ok opts →
       ∃ (hostOpts portOpts : List COption) (paths queries : List Str),
         opts = hostOpts ++ portOpts ++ paths.map COption.uriPath ++
           queries.map COption.uriQuery ∧
         (hostOpts = [] ∨ ∃ v, hostOpts = [COption.uriHost (some v)]) ∧
         (portOpts = [] ∨ ∃ v, portOpts = [COption.uriPort (some v)])) := by
  constructor
  · decide
  · intro ep resolve pton res opts h
    by_cases hna : (res.scheme = [] ∨ res.fragment ≠ [])
    · unfold uri_to_options at h
      rw [if_pos hna] at h
      exact absurd h (by simp)
    · by_cases hsc : (lowerStr res.scheme = "coap".toList ∨
          lowerStr res.scheme = "coaps".toList)
      · cases hho : hostOptions ep resolve pton res.hostname with
        | error e =>
          unfold uri_to_options at h
          rw [if_neg hna, if_neg (not_not_intro hsc), hho] at h
          exact absurd h (by simp)
        | ok hostOpts =>
          rw [uri_to_options_eq ep resolve pton res hna hsc hho] at h
          cases hp : decodeAll (pathSegmentsOf res.path) with
          | error e => rw [hp] at h; exact absurd h (by simp)
          | ok segs =>
            rw [hp] at h
            cases hq : decodeAll (queryClausesOf res.query) with
            | error e => rw [hq] at h; exact absurd h (by simp)
            | ok clauses =>
              rw [hq] at h
              have hop := Except.ok.inj h
              refine ⟨hostOpts,
                (if res.port.getD (port_for_scheme (lowerStr res.scheme)) ≠
                    ep.port
                 then [COption.uriPort (some (res.port.getD
                   (port_for_scheme (lowerStr res.scheme))))]
                 else []),
                segs, clauses, hop.symm,
                hostOptions_ok_shape ep resolve pton res.hostname hostOpts hho,
                ?_⟩
              by_cases hpp :
                res.port.getD (port_for_scheme (lowerStr res.scheme)) ≠ ep.port
              · right
                rw [if_pos hpp]
                exact ⟨_, rfl⟩
              · left
                rw [if_neg hpp]
      · unfold uri_to_options at h
        rw [if_neg hna, if_pos hsc] at h
        exact absurd h (by simp)

/-- Witness for C4's general ordering conjunct, instantiated with the
result of the concrete conjunct. -/
theorem uri_to_options_order_spec_witness :
    ∃ (hostOpts portOpts : List COption) (paths queries : List Str),
      [COption.uriPath "a".toList, COption.uriPath "b".toList,
       COption.uriQuery "x=1".toList] =
        hostOpts ++ portOpts ++ paths.map COption.uriPath ++
          queries.map COption.uriQuery ∧
      (hostOpts = [] ∨ ∃ v, hostOpts = [COption.uriHost (some v)]) ∧
      (portOpts = [] ∨ ∃ v, portOpts = [COption.uriPort (some v)]) :=
  uri_to_options_order_spec.2 epH noResolver noPton splitPathQuery _
    uri_to_options_order_spec.1

/-! ## Registry lemmas -/

theorem keyOfEp_mkEp (k : EpKey) (ht : Str) : keyOfEp (mkEp k ht) = k := rfl

theorem lookupReg_update (k ck : EpKey) (n : Nat) (st : RegState)
    (E : List (Nat × Ep)) (M : Nat) :
    lookupReg k ⟨(ck, n) :: st.reg, E, M⟩ =
      if ck = k then some n else lookupReg k st := by
  unfold lookupReg
  by_cases h : ck = k
  · rw [if_pos h]
    rw [List.find?_cons_of_pos _ (by simpa using h)]
    rfl
  · rw [if_neg h]
    rw [List.find?_cons_of_neg _ (by simpa using h)]

theorem lookupEp_update (i n : Nat) (e : Ep) (st : RegState)
    (R : List (EpKey × Nat)) (M : Nat) :
    lookupEp i ⟨R, (n, e) :: st.eps, M⟩ =
      if n = i then some e else lookupEp i st := by
  unfold lookupEp
  by_cases h : n = i
  · rw [if_pos h]
    rw [List.find?_cons_of_pos _ (by simpa using h)]
    rfl
  · rw [if_neg h]
    rw [List.find?_cons_of_neg _ (by simpa using h)]

theorem lookupEp_mem {i : Nat} {st : RegState} {e : Ep}
    (h : lookupEp i st = some e) : (i, e) ∈ st.eps := by
  unfold lookupEp at h
  cases hf : st.eps.find? (fun q => q.1 == i) with
  | none => rw [hf] at h; exact Option.noConfusion h
  | some q =>
    rw [hf] at h
    have hm := List.mem_of_find?_eq_some hf
    have hp := List.find?_some hf
    have hq : q = (i, e) := by
      cases q with
      | mk qi qe =>
        simp only [beq_iff_eq] at hp
        simp only [Option.map_some', Option.some.injEq] at h
        rw [hp, h]
    rw [← hq]
    exact hm

theorem regWF_unique {st : RegState} (hwf : RegWF st) {i j : Nat} {e e2 : Ep}
    (hi : lookupEp i st = some e) (hj : lookupEp j st = some e2)
    (hk : keyOfEp e = keyOfEp e2) : i = j := by
  have ha := (hwf.2 _ (lookupEp_mem hi)).1
  have hb := (hwf.2 _ (lookupEp_mem hj)).1
  simp only at ha hb
  rw [hk] at ha
  exact Option.some.inj (ha.symm.trans hb)

theorem endpoint_new_lookup (rk : Option EpKey) (ck : EpKey) (ht : Str)
    (st : RegState) :
    lookupReg (derived_key rk ck st) (endpoint_new rk ck ht st).2 =
      some (endpoint_new rk ck ht st).1 := by
  unfold endpoint_new derived_key
  cases rk with
  | none =>
    simp only [Option.bind]
    cases hck : lookupReg ck st with
    | some i => simp [hck]
    | none =>
      simp only [hck]
      rw [lookupReg_update]
      simp
  | some k =>
    cases hk : lookupReg k st with
    | some i => simp [hk]
    | none =>
      simp only [Option.bind, hk, Option.isSome_none]
      cases hck : lookupReg ck st with
      | some i => simp [hck]
      | none =>
        simp only [hck, Bool.false_eq_true, if_false]
        rw [lookupReg_update]
        simp

theorem endpoint_new_preserves_lookup (rk : Option EpKey) (ck : EpKey)
    (ht : Str) (st : RegState) (k : EpKey) (i : Nat)
    (hk : lookupReg k st = some i) :
    lookupReg k (endpoint_new rk ck ht st).2 = some i := by
  unfold endpoint_new
  cases hrb : rk.bind (fun kk => lookupReg kk st) with
  | some n => exact hk
  | none =>
    cases hck : lookupReg ck st with
    | some n => exact hk
    | none =>
      rw [lookupReg_update]
      rw [if_neg (fun hh => by rw [hh, hk] at hck; exact Option.noConfusion hck)]
      exact hk

theorem endpoint_new_WF (rk : Option EpKey) (ck : EpKey) (ht : Str)
    (st : RegState) (hwf : RegWF st) : RegWF (endpoint_new rk ck ht st).2 := by
  unfold endpoint_new
  cases hrb : rk.bind (fun kk => lookupReg kk st) with
  | some n => exact hwf
  | none =>
    cases hck : lookupReg ck st with
    | some n => exact hwf
    | none =>
      constructor
      · intro p hp
        rcases List.mem_cons.mp hp with hp1 | hp2
        · subst hp1
          constructor
          · rw [lookupEp_update]
            simp [keyOfEp_mkEp]
          · simp
        · have hold := hwf.1 p hp2
          constructor
          · rw [lookupEp_update]
            rw [if_neg (by omega : ¬(st.nextId = p.2))]
            exact hold.1
          · simp only
            omega
      · intro q hq
        rcases List.mem_cons.mp hq with hq1 | hq2
        · subst hq1
          constructor
          · simp only [keyOfEp_mkEp]
            rw [lookupReg_update]
            simp
          · simp
        · have hold := hwf.2 q hq2
          constructor
          · rw [lookupReg_update]
            rw [if_neg (fun hh => by rw [hh, hold.1] at hck; exact Option.noConfusion hck)]
            exact hold.1
          · simp only
            omega

/-- C1: on a well-formed registry, two `Endpoint.__new__` calls whose
derived identity key `(family, in_addr, port, security_mode)` is the
same return the identical instance (the same registry identity);
well-formedness is preserved, and at no point do two distinct live
endpoint instances with the same key exist — any two registered
instances with equal key tuples have the same identity. -/
theorem endpoint_registry_uniqueness (rk1 rk2 : Option EpKey)
    (c1 c2 : EpKey) (h1 h2 : Str) (st : RegState) (hwf : RegWF st) :
    (derived_key rk1 c1 st =
        derived_key rk2 c2 (endpoint_new rk1 c1 h1 st).2 →
      (endpoint_new rk2 c2 h2 (endpoint_new rk1 c1 h1 st).2).1 =
        (endpoint_new rk1 c1 h1 st).1) ∧
    RegWF (endpoint_new rk2 c2 h2 (endpoint_new rk1 c1 h1 st).2).2 ∧
    (∀ (i j : Nat) (e e2 : Ep),
       lookupEp i (endpoint_new rk2 c2 h2 (endpoint_new rk1 c1 h1 st).2).2 =
         some e →
       lookupEp j (endpoint_new rk2 c2 h2 (endpoint_new rk1 c1 h1 st).2).2 =
         some e2 →
       keyOfEp e = keyOfEp e2 → i = j) := by
  have hwf2 := endpoint_new_WF rk2 c2 h2 _ (endpoint_new_WF rk1 c1 h1 st hwf)
  refine ⟨?_, hwf2, fun i j e e2 hi hj hk => regWF_unique hwf2 hi hj hk⟩
  intro hd
  have ha := endpoint_new_lookup rk1 c1 h1 st
  have hb := endpoint_new_lookup rk2 c2 h2 (endpoint_new rk1 c1 h1 st).2
  have hc := endpoint_new_preserves_lookup rk2 c2 h2
    (endpoint_new rk1 c1 h1 st).2 _ _ ha
  rw [← hd] at hb
  exact Option.some.inj (hb.symm.trans hc)

/-- Witness for C1: two constructions of `Endpoint(family=None,
host='name')` on the empty registry derive the same key and return the
same instance. -/
theorem endpoint_registry_uniqueness_witness :
    RegWF regState0 ∧
    (derived_key (some keyName) keyName regState0 =
        derived_key (some keyName) keyName
          (endpoint_new (some keyName) keyName "name".toList regState0).2 →
      (endpoint_new (some keyName) keyName "name".toList
          (endpoint_new (some keyName) keyName "name".toList regState0).2).1 =
        (endpoint_new (some keyName) keyName "name".toList regState0).1) :=
  ⟨by decide,
   (endpoint_registry_uniqueness (some keyName) (some keyName) keyName keyName
      "name".toList "name".toList regState0 (by decide)).1⟩

/-! ## Option-list projections of path/query option lists -/

theorem uriHostValues_path_query (ps qs : List Str) :
    uriHostValues (ps.map COption.uriPath ++ qs.map COption.uriQuery) = [] := by
  simp [uriHostValues, List.filterMap_append, List.filterMap_map,
    Function.comp_def, List.filterMap_eq_nil_iff]

theorem uriPortValues_path_query (ps qs : List Str) :
    uriPortValues (ps.map COption.uriPath ++ qs.map COption.uriQuery) = [] := by
  simp [uriPortValues, List.filterMap_append, List.filterMap_map,
    Function.comp_def, List.filterMap_eq_nil_iff]

theorem uriPathValues_path_query (ps qs : List Str) :
    uriPathValues (ps.map COption.uriPath ++ qs.map COption.uriQuery) = ps := by
  induction ps with
  | nil =>
    simp [uriPathValues, List.filterMap_map, Function.comp_def,
      List.filterMap_eq_nil_iff]
  | cons p tp ih =>
    simp only [List.map_cons, List.cons_append, uriPathValues,
      List.filterMap_cons] at ih ⊢
    rw [ih]

theorem uriQueryValues_path_query (ps qs : List Str) :
    uriQueryValues (ps.map COption.uriPath ++ qs.map COption.uriQuery) = qs := by
  induction ps with
  | nil =>
    induction qs with
    | nil => rfl
    | cons q tq ihq =>
      simp only [List.map_nil, List.nil_append, List.map_cons, uriQueryValues,
        List.filterMap_cons] at ihq ⊢
      rw [ihq]
  | cons p tp ih =>
    simp only [List.map_cons, List.cons_append, uriQueryValues,
      List.filterMap_cons] at ih ⊢
    rw [ih]

/-- `uri_to_options` on a split result that carries no host or port
override of the endpoint (the hostname passes `is_same_host`, the
effective port equals the endpoint port), where every path segment and
query clause is ASCII and percent-decodes to ASCII: only path and
query options are produced, each percent-decoded. -/
theorem uri_to_options_no_override (ep : Ep) (res : SplitUri)
    (resolve : Resolver) (pton : Pton)
    (hhost : ∃ hn, res.hostname = some hn ∧ hn ≠ [] ∧
      is_same_host ep resolve pton (pyUnquote hn) = .ok true)
    (hscok : lowerStr res.scheme = "coap".toList ∨
      lowerStr res.scheme = "coaps".toList)
    (hsne : res.scheme ≠ []) (hfrag : res.fragment = [])
    (hport : res.port.getD (port_for_scheme (lowerStr res.scheme)) = ep.port)
    (hap : ∀ s ∈ pathSegmentsOf res.path,
      (∀ c ∈ s, c.toNat < 128) ∧ (∀ c ∈ pyUnquote s, c.toNat < 128))
    (haq : ∀ s ∈ queryClausesOf res.query,
      (∀ c ∈ s, c.toNat < 128) ∧ (∀ c ∈ pyUnquote s, c.toNat < 128)) :
    uri_to_options ep resolve pton res =
      .ok (((pathSegmentsOf res.path).map pyUnquote).map COption.uriPath ++
           ((queryClausesOf res.query).map pyUnquote).map COption.uriQuery) := by
  have hna : ¬(res.scheme = [] ∨ res.fragment ≠ []) := by
    intro hcon
    rcases hcon with h1 | h1
    · exact hsne h1
    · exact h1 hfrag
  obtain ⟨hn, hh1, hh2, hh3⟩ := hhost
  have hok : hostOptions ep resolve pton res.hostname = .ok [] := by
    rw [hh1]
    simp only [hostOptions]
    rw [if_pos hh2, hh3]
    rfl
  rw [uri_to_options_eq ep resolve pton res hna hscok hok,
    decodeAll_ascii hap, decodeAll_ascii haq]
  rw [if_neg (fun hh => hh hport)]
  simp

theorem not_mem_pyQuote_slash {s : Str} (hb : ByteStr s) :
    '/' ∉ pyQuote [] s :=
  not_mem_pyQuote [] hb (by decide) (by decide) (by decide)
    (fun m hm => (hexDigitCharU_facts m hm).2.2.2.1)

theorem not_mem_pyQuote_amp {s : Str} (hb : ByteStr s) :
    '&' ∉ pyQuote ['?'] s :=
  not_mem_pyQuote ['?'] hb (by decide) (by decide) (by decide)
    (fun m hm => (hexDigitCharU_facts m hm).2.2.2.2)

theorem byteStr_of_splitOnChar {sep : Char} {s xs : Str}
    (hb : ByteStr s) (hxs : xs ∈ splitOnChar sep s) : ByteStr xs :=
  fun c hc => hb c (mem_of_mem_splitOnChar sep hxs hc)

theorem byteStr_of_pathSegment {p s : Str} (hb : ByteStr p)
    (hs : s ∈ pathSegmentsOf p) : ByteStr s := by
  unfold pathSegmentsOf at hs
  by_cases hg : p ≠ [] ∧ p ≠ ['/']
  · rw [if_pos hg] at hs
    have hbs : ByteStr (if p.head? = some '/' then p.tail else p) := by
      by_cases hh : p.head? = some '/'
      · rw [if_pos hh]
        intro c hc
        cases p with
        | nil => simp at hc
        | cons d t => exact hb c (List.mem_cons_of_mem _ hc)
      · rw [if_neg hh]
        exact hb
    exact byteStr_of_splitOnChar hbs hs
  · rw [if_neg hg] at hs
    simp at hs

theorem byteStr_of_queryClause {q c : Str} (hb : ByteStr q)
    (hc : c ∈ queryClausesOf q) : ByteStr c := by
  unfold queryClausesOf at hc
  by_cases hq : q ≠ []
  · rw [if_pos hq] at hc
    exact byteStr_of_splitOnChar hb hc
  · rw [if_neg hq] at hc
    simp at hc

/-- `uri_from_options` applied to a pure path/query option list: the
scheme comes from the security mode, the authority is the endpoint's
own host and port (the port elided when it is the scheme default), the
path is rebuilt from the re-encoded segments, the query from the
re-encoded clauses. -/
theorem uri_from_options_no_host_port (ep : Ep) (ps qs : List Str) :
    uri_from_options ep (ps.map COption.uriPath ++ qs.map COption.uriQuery) =
    .ok { scheme := if ep.security_mode ≠ none then "coaps".toList
                    else "coap".toList
          netloc := if ep.port = port_for_scheme
              (if ep.security_mode ≠ none then "coaps".toList
               else "coap".toList)
            then ep.uri_host
            else ep.uri_host ++ ':' :: natToStr ep.port
          path :=
            if intercalateChar '/'
                ([] :: ps.map (fun s => pyQuote [] (to_net_unicode s))) = []
            then ['/']
            else intercalateChar '/'
                ([] :: ps.map (fun s => pyQuote [] (to_net_unicode s)))
          query := intercalateChar '&'
            (qs.map (fun q => pyQuote ['?'] (to_net_unicode q))) } := by
  have hhost : hostFromOptions ep
      (ps.map COption.uriPath ++ qs.map COption.uriQuery) = .ok ep.uri_host := by
    unfold hostFromOptions
    rw [uriHostValues_path_query]
    rfl
  have hport : portFromOptions ep
      (ps.map COption.uriPath ++ qs.map COption.uriQuery) = .ok ep.port := by
    unfold portFromOptions
    rw [uriPortValues_path_query]
    rfl
  unfold uri_from_options
  rw [hhost, hport, uriPathValues_path_query, uriQueryValues_path_query]

theorem splitOnChar_map_quote_slash (l : List Str) (hne : l ≠ [])
    (hb : ∀ s ∈ l, ByteStr s) :
    splitOnChar '/'
      (intercalateChar '/' (l.map (fun s => pyQuote [] (to_net_unicode s)))) =
      l.map (fun s => pyQuote [] (to_net_unicode s)) := by
  apply splitOnChar_intercalateChar
  · simpa using hne
  · intro xs hxs
    obtain ⟨s, hs, rfl⟩ := List.mem_map.mp hxs
    exact not_mem_pyQuote_slash (hb s hs)

theorem splitOnChar_map_quote_amp (l : List Str) (hne : l ≠ [])
    (hb : ∀ s ∈ l, ByteStr s) :
    splitOnChar '&'
      (intercalateChar '&' (l.map (fun s => pyQuote ['?'] (to_net_unicode s)))) =
      l.map (fun s => pyQuote ['?'] (to_net_unicode s)) := by
  apply splitOnChar_intercalateChar
  · simpa using hne
  · intro xs hxs
    obtain ⟨s, hs, rfl⟩ := List.mem_map.mp hxs
    exact not_mem_pyQuote_amp (hb s hs)

theorem map_unquote_map_quote (safe : List Char) (l : List Str)
    (hb : ∀ s ∈ l, ByteStr s) (hp : '%' ∉ safe) :
    (l.map (fun s => pyQuote safe (to_net_unicode s))).map pyUnquote = l := by
  induction l with
  | nil => rfl
  | cons s tl ih =>
    simp only [List.map_cons]
    rw [pyUnquote_pyQuote safe
      (show ByteStr (to_net_unicode s) from hb s (List.mem_cons_self _ _)) hp]
    rw [ih (fun x hx => hb x (List.mem_cons_of_mem _ hx))]
    rfl

/-- Decoding the path that `uri_from_options` rebuilds from the decoded
segments of `p` gives the decoded segments of `p` itself. -/
theorem pathSegmentsDecoded_rebuild (p : Str)
    (hbl : ∀ s ∈ (pathSegmentsOf p).map pyUnquote, ByteStr s) :
    pathSegmentsDecoded
      (if intercalateChar '/'
          ([] :: ((pathSegmentsOf p).map pyUnquote).map
            (fun s => pyQuote [] (to_net_unicode s))) = []
       then ['/']
       else intercalateChar '/'
          ([] :: ((pathSegmentsOf p).map pyUnquote).map
            (fun s => pyQuote [] (to_net_unicode s)))) =
    pathSegmentsDecoded p := by
  by_cases h0 : pathSegmentsOf p = []
  · rw [h0]
    simp only [List.map_nil]
    rw [show intercalateChar '/' [([] : Str)] = [] from rfl, if_pos rfl]
    unfold pathSegmentsDecoded
    rw [h0]
    rw [show pathSegmentsOf ['/'] = [] by unfold pathSegmentsOf; simp]
  · set l := (pathSegmentsOf p).map pyUnquote with hl
    have hlne : l ≠ [] := by
      rw [hl]
      simpa using h0
    have hlnn : l ≠ [[]] := by
      rw [hl]
      intro hh
      cases hsg : pathSegmentsOf p with
      | nil => exact h0 hsg
      | cons a tl =>
        rw [hsg] at hh
        simp only [List.map_cons, List.cons.injEq] at hh
        have ha := (pyUnquote_eq_nil_iff a).mp hh.1
        have htl := List.map_eq_nil_iff.mp hh.2
        exact pathSegmentsOf_ne_singleton_nil p (by rw [hsg, ha, htl])
    obtain ⟨m, ms2, hms⟩ : ∃ m ms2,
        l.map (fun s => pyQuote [] (to_net_unicode s)) = m :: ms2 := by
      cases hmm : l.map (fun s => pyQuote [] (to_net_unicode s)) with
      | nil => exact absurd (List.map_eq_nil_iff.mp hmm) hlne
      | cons m ms2 => exact ⟨m, ms2, rfl⟩
    rw [hms]
    rw [show intercalateChar '/' ([] :: m :: ms2) =
      '/' :: intercalateChar '/' (m :: ms2) from rfl]
    rw [if_neg (by exact List.cons_ne_nil _ _)]
    have hI2ne : intercalateChar '/' (m :: ms2) ≠ [] := by
      intro hh
      rcases (intercalateChar_eq_nil_iff _ _).mp hh with h1 | h1
      · exact List.noConfusion h1
      · rw [← hms] at h1
        cases hlc : l with
        | nil => exact hlne hlc
        | cons x tl =>
          rw [hlc] at h1
          simp only [List.map_cons, List.cons.injEq] at h1
          have hx : x = [] := (pyQuote_eq_nil_iff [] _).mp h1.1
          have htl := List.map_eq_nil_iff.mp h1.2
          exact hlnn (by rw [hlc, hx, htl])
    unfold pathSegmentsDecoded
    have hps : pathSegmentsOf ('/' :: intercalateChar '/' (m :: ms2)) =
        splitOnChar '/' (intercalateChar '/' (m :: ms2)) := by
      unfold pathSegmentsOf
      rw [if_pos ⟨List.cons_ne_nil _ _,
        fun hh => hI2ne (List.cons.inj hh).2⟩]
      rw [if_pos (show ('/' :: intercalateChar '/' (m :: ms2)).head? =
        some '/' from rfl)]
      rfl
    rw [hps, ← hms]
    rw [splitOnChar_map_quote_slash l hlne hbl]
    rw [map_unquote_map_quote [] l hbl (by decide)]

theorem queryClausesOf_ne_singleton_nil (q : Str) :
    queryClausesOf q ≠ [[]] := by
  unfold queryClausesOf
  by_cases hq : q ≠ []
  · rw [if_pos hq]
    exact splitOnChar_ne_singleton_nil '&' hq
  · rw [if_neg hq]
    simp

/-- Decoding the query that `uri_from_options` rebuilds from the
decoded clauses of `q` gives the decoded clauses of `q` itself. -/
theorem queryClausesDecoded_rebuild (q : Str)
    (hbl : ∀ s ∈ (queryClausesOf q).map pyUnquote, ByteStr s) :
    queryClausesDecoded
      (intercalateChar '&'
        (((queryClausesOf q).map pyUnquote).map
          (fun s => pyQuote ['?'] (to_net_unicode s)))) =
    queryClausesDecoded q := by
  by_cases h0 : queryClausesOf q = []
  · rw [h0]
    simp only [List.map_nil]
    rw [show intercalateChar '&' ([] : List Str) = [] from rfl]
    unfold queryClausesDecoded
    rw [h0]
    rw [show queryClausesOf [] = [] from rfl]
  · set l := (queryClausesOf q).map pyUnquote with hl
    have hlne : l ≠ [] := by
      rw [hl]
      simpa using h0
    have hlnn : l ≠ [[]] := by
      rw [hl]
      intro hh
      cases hsg : queryClausesOf q with
      | nil => exact h0 hsg
      | cons a tl =>
        rw [hsg] at hh
        simp only [List.map_cons, List.cons.injEq] at hh
        have ha := (pyUnquote_eq_nil_iff a).mp hh.1
        have htl := List.map_eq_nil_iff.mp hh.2
        exact queryClausesOf_ne_singleton_nil q (by rw [hsg, ha, htl])
    have hJne : intercalateChar '&'
        (l.map (fun s => pyQuote ['?'] (to_net_unicode s))) ≠ [] := by
      intro hh
      rcases (intercalateChar_eq_nil_iff _ _).mp hh with h1 | h1
      · exact hlne (List.map_eq_nil_iff.mp h1)
      · cases hlc : l with
        | nil => exact hlne hlc
        | cons x tl =>
          rw [hlc] at h1
          simp only [List.map_cons, List.cons.injEq] at h1
          have hx : x = [] := (pyQuote_eq_nil_iff ['?'] _).mp h1.1
          have htl := List.map_eq_nil_iff.mp h1.2
          exact hlnn (by rw [hlc, hx, htl])
    unfold queryClausesDecoded
    rw [show queryClausesOf (intercalateChar '&'
        (l.map (fun s => pyQuote ['?'] (to_net_unicode s)))) =
      splitOnChar '&' (intercalateChar '&'
        (l.map (fun s => pyQuote ['?'] (to_net_unicode s)))) by
      unfold queryClausesOf
      rw [if_pos hJne]]
    rw [splitOnChar_map_quote_amp l hlne hbl]
    rw [map_unquote_map_quote ['?'] l hbl (by decide)]

/-- C3 counterexample: the round trip is not textually faithful, and
outside the ASCII domain it does not even succeed.  For the endpoint
`epH` and the relative URI `?x=1` (resolving against the base URI to
`coap://h/?x=1`, with no host or port override), the reconstructed URI
is NOT textually equivalent to the resolution: the query comes back as
`x%3D1`, since the encoder escapes `=` (not in Python's always-safe set
nor in the safe set `?`).  And for `coap://h/a%FF` the forward
direction itself raises `UnicodeDecodeError`: the unquoted byte `0xFF`
is not valid UTF-8, so no round trip exists at all. -/
theorem uri_roundtrip_textual_counterexample :
    uri_to_options epH noResolver noPton splitQueryOnly =
      .ok [COption.uriQuery "x=1".toList] ∧
    uri_from_options epH [COption.uriQuery "x=1".toList] =
      .ok { scheme := "coap".toList, netloc := "h".toList, path := ['/'],
            query := "x%3D1".toList } ∧
    splitQueryOnly.query = "x=1".toList ∧
    ("x%3D1".toList : Str) ≠ "x=1".toList ∧
    uri_to_options epH noResolver noPton splitBadUtf8 =
      .error (.unicodeError "utf-8".toList) := by decide

/-- C3 (amended): for an endpoint `E` and a split resolution result
`res` carrying no host or port override (`res`'s hostname passes
`is_same_host` against `E`, the effective port is `E`'s, the scheme is
the one `E`'s security mode yields, no fragment, and the netloc is the
authority `uri_from_options` rebuilds from `E`), and whose path
segments and query clauses are ASCII and percent-decode to ASCII,
`uri_from_options(E, uri_to_options(E, res))` succeeds and yields a URI
with the same scheme, the same authority, and a path and query that are
equivalent to `res`'s up to percent-decoding: the decoded segment and
clause sequences coincide.  Textual equality does not hold in general
(the counterexample's `=` comes back `%3D`), and outside the ASCII
domain even decode-equivalence fails: a non-UTF-8 escape such as `%FF`
raises instead of round-tripping, and a non-ASCII decode is re-encoded
through NFC-normalizing Net-Unicode, which the byte model does not
track. -/
theorem uri_roundtrip_decoded (ep : Ep) (res : SplitUri)
    (resolve : Resolver) (pton : Pton)
    (hhost : ∃ hn, res.hostname = some hn ∧ hn ≠ [] ∧
      is_same_host ep resolve pton (pyUnquote hn) = .ok true)
    (hsch : res.scheme = if ep.security_mode ≠ none then "coaps".toList
      else "coap".toList)
    (hfrag : res.fragment = [])
    (hport : res.port.getD (port_for_scheme (lowerStr res.scheme)) = ep.port)
    (hnl : res.netloc = if ep.port = port_for_scheme res.scheme
      then ep.uri_host else ep.uri_host ++ ':' :: natToStr ep.port)
    (hap : ∀ s ∈ pathSegmentsOf res.path,
      (∀ c ∈ s, c.toNat < 128) ∧ (∀ c ∈ pyUnquote s, c.toNat < 128))
    (haq : ∀ s ∈ queryClausesOf res.query,
      (∀ c ∈ s, c.toNat < 128) ∧ (∀ c ∈ pyUnquote s, c.toNat < 128)) :
    ∃ (opts : List COption) (parts : UriParts),
      uri_to_options ep resolve pton res = .ok opts ∧
      uri_from_options ep opts = .ok parts ∧
      parts.scheme = res.scheme ∧
      parts.netloc = res.netloc ∧
      pathSegmentsDecoded parts.path = pathSegmentsDecoded res.path ∧
      queryClausesDecoded parts.query = queryClausesDecoded res.query := by
  have hls : lowerStr res.scheme = res.scheme := by
    rw [hsch]
    by_cases hs : ep.security_mode ≠ none
    · rw [if_pos hs]
      decide
    · rw [if_neg hs]
      decide
  have hscok : lowerStr res.scheme = "coap".toList ∨
      lowerStr res.scheme = "coaps".toList := by
    rw [hls, hsch]
    by_cases hs : ep.security_mode ≠ none
    · right
      rw [if_pos hs]
    · left
      rw [if_neg hs]
  have hsne : res.scheme ≠ [] := by
    rw [hsch]
    by_cases hs : ep.security_mode ≠ none
    · rw [if_pos hs]
      decide
    · rw [if_neg hs]
      decide
  have hbl_p : ∀ s ∈ (pathSegmentsOf res.path).map pyUnquote, ByteStr s := by
    intro s hs
    obtain ⟨x, hx, rfl⟩ := List.mem_map.mp hs
    intro c hc
    have := (hap x hx).2 c hc
    omega
  have hbl_q : ∀ s ∈ (queryClausesOf res.query).map pyUnquote, ByteStr s := by
    intro s hs
    obtain ⟨x, hx, rfl⟩ := List.mem_map.mp hs
    intro c hc
    have := (haq x hx).2 c hc
    omega
  refine ⟨_, _,
    uri_to_options_no_override ep res resolve pton hhost hscok hsne hfrag
      hport hap haq,
    uri_from_options_no_host_port ep
      ((pathSegmentsOf res.path).map pyUnquote)
      ((queryClausesOf res.query).map pyUnquote),
    ?_, ?_, ?_, ?_⟩
  · exact hsch.symm
  · rw [hnl, hsch]
  · exact pathSegmentsDecoded_rebuild res.path hbl_p
  · exact queryClausesDecoded_rebuild res.query hbl_q

/-- Witness for the amended C3 at `coap://h/a/b?x=1` against `epH`. -/
theorem uri_roundtrip_decoded_witness :
    (∀ s ∈ pathSegmentsOf splitPathQuery.path,
      (∀ c ∈ s, c.toNat < 128) ∧ (∀ c ∈ pyUnquote s, c.toNat < 128)) ∧
    ∃ (opts : List COption) (parts : UriParts),
      uri_to_options epH noResolver noPton splitPathQuery = .ok opts ∧
      uri_from_options epH opts = .ok parts ∧
      parts.scheme = splitPathQuery.scheme ∧
      parts.netloc = splitPathQuery.netloc ∧
      pathSegmentsDecoded parts.path = pathSegmentsDecoded splitPathQuery.path ∧
      queryClausesDecoded parts.query =
        queryClausesDecoded splitPathQuery.query :=
  ⟨by decide,
   uri_roundtrip_decoded epH splitPathQuery noResolver noPton
     ⟨"h".toList, by decide, by decide, by decide⟩
     (by decide) (by decide) (by decide) (by decide) (by decide) (by decide)⟩

